import Mathlib

/-!
Shallow embedding of `export_obj_so.py` (Wavefront OBJ exporter) and proofs
about it.  Strings are modeled as `List Char` (`Str`); Python floats are
modeled as rationals; Python dicts are modeled as association lists kept in
insertion order (matching Python 3.7+ dict semantics).  Host-side geometry
operations that no verified property depends on (matrix transform of
coordinates, triangulation, normal splitting/flipping, `calc_smooth_groups`)
are absorbed into the input snapshots: the `Mesh`/`Spline` structures hold the
values those external operations produce, exactly as `write_file` reads them.
-/

namespace ExportObjSO

/-- Python strings, modeled as lists of characters. -/
abbrev Str := List Char

/-- `name_compat` (source lines 57-61): `None` becomes the string "None",
otherwise spaces are replaced with underscores. -/
def name_compat : Option Str → Str
  | none => "None".data
  | some s => s.map (fun c => if c = ' ' then '_' else c)

/-! ### Decimal representation of numbers

Python's `str`/`"%d"`/`"%3d"`/`"%.6f"` formatting, restricted to what the
exporter uses. -/

/-- Little-endian base-10 digits, fuel-based so that it evaluates in the
kernel; `decDigitsAux_eq` below shows it agrees with `Nat.digits 10`. -/
def decDigitsAux : Nat → Nat → List Nat
  | 0, _ => []
  | _ + 1, 0 => []
  | fuel + 1, n + 1 => (n + 1) % 10 :: decDigitsAux fuel ((n + 1) / 10)

/-- Big-endian decimal digit string of a natural number (Python `str(n)`). -/
def decRepr (n : Nat) : Str :=
  if n = 0 then ['0'] else ((decDigitsAux n n).map Nat.digitChar).reverse

/-- Decimal string of an integer (Python `str(i)`, used for `curv` indices). -/
def intRepr (z : Int) : Str :=
  if z < 0 then '-' :: decRepr z.natAbs else decRepr z.natAbs

/-- Left-pad a digit string with zeros up to width `w`. -/
def padZeros (w : Nat) (s : Str) : Str :=
  List.replicate (w - s.length) '0' ++ s

/-- Python `"%3d" % n`: decimal representation space-padded to width 3. -/
def fmt3 (n : Nat) : Str :=
  List.replicate (3 - (decRepr n).length) ' ' ++ decRepr n

/-- Python `round` to an integer: round-half-to-even (banker's rounding). -/
def pyRoundInt (q : ℚ) : ℤ :=
  let f : ℤ := ⌊q⌋
  let r : ℚ := q - f
  if r < 1/2 then f
  else if 1/2 < r then f + 1
  else if f % 2 = 0 then f else f + 1

/-- Python `round(x, n)`, returned as an integer count of `10 ^ (-n)` units
(an exact model of the quantized value used in dedup keys). -/
def pyRound (n : Nat) (q : ℚ) : ℤ := pyRoundInt (q * (10 ^ n : ℚ))

/-- Render an integer count of `10 ^ (-d)` units as a fixed-point decimal
string with exactly `d` fractional digits. -/
def fmtScaled (d : Nat) (z : ℤ) : Str :=
  (if z < 0 then ['-'] else []) ++
    decRepr (z.natAbs / 10 ^ d) ++ '.' :: padZeros d (decRepr (z.natAbs % 10 ^ d))

/-- Python `"%.<d>f" % q`: round to `d` decimals, print with exactly `d`
fractional digits. -/
def fmtFixed (d : Nat) (q : ℚ) : Str :=
  fmtScaled d (pyRoundInt (q * (10 ^ d : ℚ)))

/-- `" ".join(...)`. -/
def joinSpace : List Str → Str
  | [] => []
  | [s] => s
  | s :: rest => s ++ ' ' :: joinSpace rest

/-! ### Python dicts as insertion-ordered association lists -/

/-- `d.get(k)` on an insertion-ordered dict. -/
def alookup {K V : Type} [DecidableEq K] : List (K × V) → K → Option V
  | [], _ => none
  | (a, v) :: t, k => if a = k then some v else alookup t k

/-! ### The first-occurrence dedup loop (UV and normal pools)

`processKeys` is the shape of the two dedup loops in `write_file`
(source lines 477-507 for UVs and 511-528 for normals): scan a sequence of
keyed items; on a key's first occurrence assign it the next fresh index,
record the item's payload (the emitted `vt`/`vn` data), otherwise reuse the
stored index. -/

/-- One dedup pass. Returns (per-item assigned indices, payloads of first
occurrences in order, final (dict, counter) state). -/
def processKeys {K V : Type} [DecidableEq K] :
    List (K × V) → List (K × Nat) × Nat →
    List Nat × List V × (List (K × Nat) × Nat)
  | [], st => ([], [], st)
  | (k, v) :: ks, (d, c) =>
    match alookup d k with
    | some idx =>
      let r := processKeys ks (d, c)
      (idx :: r.1, r.2.1, r.2.2)
    | none =>
      let r := processKeys ks (d ++ [(k, c)], c + 1)
      (c :: r.1, v :: r.2.1, r.2.2)

/-- Invariant of the dedup state: the counter is the dict size, the value
stored at position `j` is `j`, and keys are distinct. -/
def DInv {K : Type} (d : List (K × Nat)) (c : Nat) : Prop :=
  c = d.length ∧ (∀ j (h : j < d.length), (d.get ⟨j, h⟩).2 = j) ∧
    (d.map Prod.fst).Nodup

/-! ### Material data and the material name resolver (source lines 587-619) -/

/-- A Blender material, reduced to what the exporter reads: its name and the
resolved base-color texture image path (shader-graph introspection and path
resolution are external collaborators). -/
structure Material where
  name : Str
  texImage : Option Str
deriving DecidableEq

/-- `(material.name, image.name)` dict key; `write_file` always passes `None`
for the image slot of mesh faces. -/
abbrev MatKey := Option Str × Option Str

/-- The two registries threaded through the export:
`mtl_dict : key -> (resolved name, material)` and
`mtl_rev_dict : resolved name -> key`. -/
structure MtlState where
  mtl_dict : List (MatKey × (Str × Option Material))
  mtl_rev_dict : List (Str × MatKey)
deriving DecidableEq

/-- `mtl_rev_dict.get(nm, None) in {key, None}` (the collision test on source
lines 600-603 and 609-611). -/
def revOkB (rev : List (Str × MatKey)) (key : MatKey) (nm : Str) : Bool :=
  match alookup rev nm with
  | none => true
  | some k0 => decide (k0 = key)

/-- The candidate name tried for suffix counter `i`:
`mtl_name + "_%3d" % i` (source line 613). -/
def sfxCand (base : Str) (i : Nat) : Str := base ++ '_' :: fmt3 i

/-- The `while` loop of source lines 608-614: try `i = 1, 2, ...` until the
candidate name is free.  The loop always terminates within
`len(mtl_rev_dict) + 1` probes (each failing candidate is a distinct name
already present in `mtl_rev_dict`), which we use as fuel; the fuel-exhausted
branch is unreachable (`searchSfx_free` below). -/
def searchSfx (rev : List (Str × MatKey)) (key : MatKey) (base : Str) :
    Nat → Nat → Str
  | 0, i => sfxCand base i
  | fuel + 1, i =>
    if revOkB rev key (sfxCand base i) then sfxCand base i
    else searchSfx rev key base fuel (i + 1)

/-- The material-name resolution and registration step of source lines
588-619: return the stored name if the key is registered, otherwise derive a
collision-free name (base, then `_NONE`/`_<image>`, then `_%3d` counters) and
register it in both dicts. -/
def resolveMat (st : MtlState) (key : MatKey) (mat : Option Material) :
    Str × MtlState :=
  match alookup st.mtl_dict key with
  | some md => (md.1, st)
  | none =>
    let base := name_compat key.1
    let mtl_name :=
      if revOkB st.mtl_rev_dict key base then base
      else
        let tmp_ext := match key.2 with
          | none => "_NONE".data
          | some img => '_' :: name_compat (some img)
        if revOkB st.mtl_rev_dict key (base ++ tmp_ext) then base ++ tmp_ext
        else searchSfx st.mtl_rev_dict key base (st.mtl_rev_dict.length + 1) 1
    (mtl_name,
     ⟨st.mtl_dict ++ [(key, (mtl_name, mat))],
      st.mtl_rev_dict ++ [(mtl_name, key)]⟩)

/-! ### Stable sorting (Python `list.sort(key=...)`) -/

/-- Python string `<` (lexicographic by code point). -/
def strLtB : Str → Str → Bool
  | [], [] => false
  | [], _ :: _ => true
  | _ :: _, [] => false
  | a :: s, b :: t => if a < b then true else if b < a then false else strLtB s t

def insertLe {α : Type} (le : α → α → Bool) (x : α) : List α → List α
  | [] => [x]
  | y :: ys => if le x y then x :: y :: ys else y :: insertLe le x ys

def sortByB {α : Type} (le : α → α → Bool) : List α → List α
  | [] => []
  | x :: xs => insertLe le x (sortByB le xs)

/-- Python's stable `list.sort(key=...)`: modeled by decorating each element
with its original index and sorting by (key, index) under a total order, which
uniquely determines the stable result. -/
def pySortKeyed {α β : Type} (keyLt : β → β → Bool) (key : α → β)
    (l : List α) : List α :=
  (sortByB (fun a b =>
      if keyLt (key a.2) (key b.2) then true
      else if keyLt (key b.2) (key a.2) then false
      else decide (a.1 ≤ b.1)) l.enum).map Prod.snd

/-! ### The MTL writer (source lines 74-114) -/

def newmtlLine (nm : Str) : Str := "newmtl ".data ++ nm

def mapKdLine (p : Str) : Str := "map_Kd ".data ++ p

/-- `write_mtl`: header comments, then one `newmtl` block per registry value,
sorted by the resolved name `m[0]` (source lines 84-85); a `map_Kd` line is
appended only when the material exists and has a resolvable base-color
image. -/
def write_mtl (mtl_dict : List (MatKey × (Str × Option Material))) : List Str :=
  let sorted := pySortKeyed strLtB Prod.fst (mtl_dict.map Prod.snd)
  ("# Blender MTL File: None".data) ::
    ("# Material Count: ".data ++ decRepr mtl_dict.length) ::
    (sorted.map (fun v =>
      newmtlLine v.1 ::
        (match v.2 with
         | none => []
         | some m =>
           match m.texImage with
           | none => []
           | some p => [mapKdLine p]))).join

/-- The sequence of names carried by `newmtl` lines, in file order. -/
def newmtlNames (lines : List Str) : List Str :=
  lines.filterMap (fun l =>
    if l.take 7 = "newmtl ".data then some (l.drop 7) else none)

/-! ### Scene snapshot data model -/

inductive SplineType
  | POLY
  | BEZIER
  | NURBS
deriving DecidableEq

/-- A curve spline as `write_nurb` reads it; control points are already in
export space (`ob_mat @ pt.co` is applied by the external transform). -/
structure Spline where
  type : SplineType
  order_u : Nat
  point_count_v : Nat
  points : List (ℚ × ℚ × ℚ)
  use_cyclic_u : Bool
  use_endpoint_u : Bool
deriving DecidableEq

structure Loop where
  vertex_index : Nat
  normal : ℚ × ℚ × ℚ
deriving DecidableEq

structure Polygon where
  material_index : Nat
  use_smooth : Bool
  vertices : List Nat
  loop_indices : List Nat
deriving DecidableEq

structure Vertex where
  co : ℚ × ℚ × ℚ
  groups : List (Nat × ℚ)
deriving DecidableEq

structure MEdge where
  vertices : Nat × Nat
  is_loose : Bool
deriving DecidableEq

/-- The evaluated mesh snapshot as `write_file` reads it after the external
geometry steps (`to_mesh`, optional triangulation, transform, normal
split/flip, `calc_smooth_groups`).  `smooth_groups`/`smooth_groups_tot` are
the values `calc_smooth_groups` would return. -/
structure Mesh where
  vertices : List Vertex
  polygons : List Polygon
  loops : List Loop
  uv_layers : List (List (ℚ × ℚ))
  uv_active : Nat
  materials : List (Option Material)
  edges : List MEdge
  smooth_groups : List Nat
  smooth_groups_tot : Nat
deriving DecidableEq

inductive ObType
  | CURVE
  | OTHER
deriving DecidableEq

/-- A scene object; `to_mesh = none` models `ob.to_mesh()` raising
`RuntimeError`. -/
structure BObject where
  name : Str
  data_name : Str
  obType : ObType
  splines : List Spline
  to_mesh : Option Mesh
  vertex_groups : List Str
  isDupliChild : Bool
deriving DecidableEq

/-- A top-level object of the export loop, together with the instancer
expansion (`obs` list) supplied by the depsgraph. -/
structure MainObject where
  ob : BObject
  instances : List BObject

/-- The EXPORT_* keyword flags of `write_file`.  `EXPORT_TRI` and the two
modifier flags select which snapshot the external evaluation produces and do
not branch inside the modeled writer. -/
structure Config where
  EXPORT_TRI : Bool
  EXPORT_EDGES : Bool
  EXPORT_SMOOTH_GROUPS : Bool
  EXPORT_SMOOTH_GROUPS_BITFLAGS : Bool
  EXPORT_NORMALS : Bool
  EXPORT_UV : Bool
  EXPORT_MTL : Bool
  EXPORT_APPLY_MODIFIERS : Bool
  EXPORT_APPLY_MODIFIERS_RENDER : Bool
  EXPORT_BLEN_OBS : Bool
  EXPORT_GROUP_BY_OB : Bool
  EXPORT_GROUP_BY_MAT : Bool
  EXPORT_KEEP_VERT_ORDER : Bool
  EXPORT_POLYGROUPS : Bool
  EXPORT_CURVE_AS_NURBS : Bool

/-- The mutable totals of `write_file` (source lines 287-297): the three
1-based global counters and the material registries. -/
structure WState where
  totverts : Nat
  totuvco : Nat
  totno : Nat
  mtl : MtlState

/-! ### Emitted line constructors -/

def vLine (co : ℚ × ℚ × ℚ) : Str :=
  "v ".data ++ fmtFixed 6 co.1 ++ ' ' :: fmtFixed 6 co.2.1 ++ ' ' :: fmtFixed 6 co.2.2

def vtLine (uv : ℚ × ℚ) : Str :=
  "vt ".data ++ fmtFixed 6 uv.1 ++ ' ' :: fmtFixed 6 uv.2

def vnLine (k : ℤ × ℤ × ℤ) : Str :=
  "vn ".data ++ fmtScaled 4 k.1 ++ ' ' :: fmtScaled 4 k.2.1 ++ ' ' :: fmtScaled 4 k.2.2

def oLine (n : Str) : Str := "o ".data ++ n

def gLine (n : Str) : Str := "g ".data ++ n

def usemtlLine (nm : Str) : Str := "usemtl ".data ++ nm

def sLineNum (n : Nat) : Str := "s ".data ++ decRepr n

def fLine (toks : Str) : Str := 'f' :: toks

def lLine (a b : Nat) : Str := "l ".data ++ decRepr a ++ ' ' :: decRepr b

/-- Recognizer for `v` lines (they all have the shape `v <x> <y> <z>`; `vt`
and `vn` lines differ in their second character). -/
def isV : Str → Bool
  | 'v' :: ' ' :: _ => true
  | _ => false

def countV (lines : List Str) : Nat := lines.countP isV

/-! ### The curve encoder `write_nurb` (source lines 130-203) -/

/-- The negative relative `curv` index list (source lines 174-183): `-(i+1)`
for each point in emission order, plus the closing indices for cyclic
splines. -/
def baseNegIdx (n : Nat) : List ℤ := (List.range n).map (fun i : Nat => -((i : ℤ) + 1))

def curveIndices (deg : Nat) (closed : Bool) (n : Nat) : List ℤ :=
  if closed then
    (if deg = 1 then baseNegIdx n ++ [-1]
     else baseNegIdx n ++ (baseNegIdx n).take deg)
  else baseNegIdx n

/-- The point count after the closed-spline adjustment (source lines
177-183), consumed by the `parm` vector size. -/
def finalPtNum (deg : Nat) (closed : Bool) (n : Nat) : Nat :=
  if closed then (if deg = 1 then n + 1 else n + deg) else n

/-- The `parm u` value vector (source lines 189-197): `tot_parm` uniform
samples of [0,1], ends clamped when `do_endpoints`. -/
def parmValues (deg : Nat) (ptNum : Nat) (doEndpoints : Bool) : List ℚ :=
  let tot_parm := (deg + 1) + ptNum
  let d : ℚ := ((tot_parm - 1 : Nat) : ℚ)
  let base := (List.range tot_parm).map (fun i : Nat => (i : ℚ) / d)
  if doEndpoints then
    (List.range (deg + 1)).foldl
      (fun acc i => ((acc.set i 0).set (acc.length - (1 + i)) 1)) base
  else base

def curvLine (ls : List ℤ) : Str :=
  "curv 0.0 1.0 ".data ++ joinSpace (ls.map intRepr)

def parmLine (vals : List ℚ) : Str :=
  "parm u ".data ++ joinSpace (vals.map (fmtFixed 6))

def degLine (d : Nat) : Str := "deg ".data ++ decRepr d

/-- One spline of `write_nurb`: the emitted lines and its vertex
contribution.  Bezier splines, surface splines and splines with too few
points are skipped (console warnings only). -/
def nurbSpline (obName : Str) (nu : Spline) : List Str × Nat :=
  let deg := if nu.type = SplineType.POLY then 1 else nu.order_u - 1
  if nu.type = SplineType.BEZIER then ([], 0)
  else if 1 < nu.point_count_v then ([], 0)
  else if nu.points.length ≤ deg then ([], 0)
  else
    let pt_num := nu.points.length
    let do_closed := nu.use_cyclic_u
    let do_endpoints := !do_closed && nu.use_endpoint_u
    (nu.points.map vLine ++
      gLine (name_compat (some obName)) ::
      ("cstype bspline".data) ::
      degLine deg ::
      curvLine (curveIndices deg do_closed pt_num) ::
      parmLine (parmValues deg (finalPtNum deg do_closed pt_num) do_endpoints) ::
      [("end".data)],
     pt_num)

def nurbSplines (obName : Str) : List Spline → List Str × Nat
  | [] => ([], 0)
  | nu :: rest =>
    let r := nurbSpline obName nu
    let rr := nurbSplines obName rest
    (r.1 ++ rr.1, r.2 + rr.2)

def write_nurb (ob : BObject) : List Str × Nat := nurbSplines ob.name ob.splines

/-- `test_nurbs_compat` (source lines 117-127). -/
def test_nurbs_compat (ob : BObject) : Bool :=
  ob.obType == ObType.CURVE &&
    ob.splines.any (fun nu =>
      nu.point_count_v == 1 && !(nu.type == SplineType.BEZIER))

/-! ### The mesh path of `write_file` -/

/-- `veckey3d` (source lines 239-240). -/
def veckey3d (v : ℚ × ℚ × ℚ) : ℤ × ℤ × ℤ :=
  (pyRound 4 v.1, pyRound 4 v.2.1, pyRound 4 v.2.2)

/-- `veckey2d` (source lines 242-243). -/
def veckey2d (v : ℚ × ℚ) : ℤ × ℤ := (pyRound 4 v.1, pyRound 4 v.2)

/-- `face_index_pairs` (source lines 367-369). -/
def facePairs (me : Mesh) : List (Polygon × Nat) :=
  me.polygons.enum.map (fun p => (p.2, p.1))

def meshEdges (cfg : Config) (me : Mesh) : List MEdge :=
  if cfg.EXPORT_EDGES then me.edges else []

/-- The nothing-to-write test of source lines 376-381. -/
def emptyCheck (cfg : Config) (me : Mesh) : Bool :=
  (facePairs me).length + (meshEdges cfg me).length + me.vertices.length == 0

/-- The effective smoothing-group array (source lines 389-398): empty unless
requested, faces exist, and more than one group was computed. -/
def activeSG (cfg : Config) (me : Mesh) : List Nat :=
  if (cfg.EXPORT_SMOOTH_GROUPS || cfg.EXPORT_SMOOTH_GROUPS_BITFLAGS) &&
      !(facePairs me).isEmpty then
    (if me.smooth_groups_tot ≤ 1 then [] else me.smooth_groups)
  else []

/-- `materials` after the bad-index guard (source lines 400-406). -/
def effMaterials (me : Mesh) : List (Option Material) :=
  if me.materials.isEmpty then [none] else me.materials

/-- `material_names` after the bad-index guard: note that for a mesh with
zero material slots the single entry is the *string* "None"
(`name_compat(None)`), not a Python `None`. -/
def effMaterialNames (me : Mesh) : List (Option Str) :=
  if me.materials.isEmpty then [some (name_compat none)]
  else me.materials.map (fun m => m.map Material.name)

/-- `f_mat = min(f.material_index, len(materials) - 1)` (source line 552). -/
def effMatIndex (me : Mesh) (f : Polygon) : Nat :=
  min f.material_index ((effMaterials me).length - 1)

/-- The per-face material key (source lines 554-558): the face's slot name
paired with `None` (no per-face image). -/
def faceKey (me : Mesh) (f : Polygon) : MatKey :=
  ((effMaterialNames me).getD (effMatIndex me f) none, none)

/-- The sort key of the four `sort_func` lambdas (source lines 410-435),
encoded as a `Nat × Nat` using Python's numeric view of `False`/`True` as
0/1. -/
def sortKeyFace (sg : List Nat) (nmat : Nat) (a : Polygon × Nat) : Nat × Nat :=
  if 1 < nmat then
    if !sg.isEmpty then
      (a.1.material_index, if a.1.use_smooth then sg.getD a.2 0 else 0)
    else (a.1.material_index, if a.1.use_smooth then 1 else 0)
  else
    if !sg.isEmpty then (0, sg.getD (if a.1.use_smooth then a.2 else 0) 0)
    else (0, if a.1.use_smooth then 1 else 0)

def pairLtB (a b : Nat × Nat) : Bool :=
  decide (a.1 < b.1) || (a.1 == b.1 && decide (a.2 < b.2))

/-- `face_index_pairs` after the optional material/smoothing sort. -/
def sortedPairs (cfg : Config) (me : Mesh) : List (Polygon × Nat) :=
  if cfg.EXPORT_KEEP_VERT_ORDER then facePairs me
  else pySortKeyed pairLtB
    (sortKeyFace (activeSG cfg me) (effMaterials me).length) (facePairs me)

/-- The UV dedup key of one loop (source line 488):
`(loops[l_index].vertex_index, veckey2d(uv))`. -/
def uvKeyOf (me : Mesh) (uv_layer : List (ℚ × ℚ)) (li : Nat) : Nat × ℤ × ℤ :=
  ((me.loops.getD li ⟨0, (0, 0, 0)⟩).vertex_index,
   veckey2d (uv_layer.getD li (0, 0)))

/-- One face's keyed UV items, payload = the raw UV written on a fresh `vt`
line. -/
def faceUVItems (me : Mesh) (uv_layer : List (ℚ × ℚ)) (f : Polygon) :
    List ((Nat × ℤ × ℤ) × (ℚ × ℚ)) :=
  f.loop_indices.map (fun li => (uvKeyOf me uv_layer li, uv_layer.getD li (0, 0)))

/-- The UV section (source lines 471-507): per face, assign each loop a local
UV index by first occurrence of its key; collect `uv_face_mapping` keyed by
the original face index and the emitted `vt` lines. -/
def uvLoop (me : Mesh) (uv_layer : List (ℚ × ℚ)) :
    List (Polygon × Nat) → List ((Nat × ℤ × ℤ) × Nat) × Nat →
    List (Nat × List Nat) × List Str × (List ((Nat × ℤ × ℤ) × Nat) × Nat)
  | [], st => ([], [], st)
  | (f, fi) :: rest, st =>
    let r := processKeys (faceUVItems me uv_layer f) st
    let rr := uvLoop me uv_layer rest r.2.2
    ((fi, r.1) :: rr.1, r.2.1.map vtLine ++ rr.2.1, rr.2.2)

def flatLoopIdx (pairs : List (Polygon × Nat)) : List Nat :=
  (pairs.map (fun fp => fp.1.loop_indices)).join

/-- The keyed items of the normal dedup loop (source lines 512-528); key and
payload are both the rounded normal (`vn` prints the key). -/
def normalItems (me : Mesh) (pairs : List (Polygon × Nat)) :
    List ((ℤ × ℤ × ℤ) × (ℤ × ℤ × ℤ)) :=
  (flatLoopIdx pairs).map (fun li =>
    let k := veckey3d (me.loops.getD li ⟨0, (0, 0, 0)⟩).normal
    (k, k))

/-- The normal section: `loops_to_normals` (scattered by loop index into a
zero-initialized array), the `vn` lines, and `no_unique_count`. -/
def normalsSection (me : Mesh) (pairs : List (Polygon × Nat)) :
    List Nat × List Str × Nat :=
  let r := processKeys (normalItems me pairs) ([], 0)
  let l2n := ((flatLoopIdx pairs).zip r.1).foldl
    (fun acc p => acc.set p.1 p.2) (List.replicate me.loops.length 0)
  (l2n, r.2.1.map vnLine, r.2.2.2)

/-- `vgroupsMap` (source lines 541-546). -/
def vgroupsMapOf (ob : BObject) (me : Mesh) : List (List (Str × ℚ)) :=
  me.vertices.map (fun v =>
    v.groups.map (fun g => (ob.vertex_groups.getD g.1 [], g.2)))

def upsertW : List (Str × ℚ) → Str → ℚ → List (Str × ℚ)
  | [], k, w => [(k, w)]
  | (a, x) :: t, k, w =>
    if a = k then (a, x + w) :: t else (a, x) :: upsertW t k w

/-- Python tuple `>` on `(weight, name)` pairs. -/
def wnGt (a b : ℚ × Str) : Bool :=
  decide (b.1 < a.1) || (a.1 == b.1 && strLtB b.2 a.2)

/-- `findVertexGroupName` (source lines 245-265): accumulate per-group
weights over the face's vertices (dict in insertion order), then take the
Python `max` over `(weight, name)` tuples. -/
def findVertexGroupName (f : Polygon) (vmap : List (List (Str × ℚ))) : Str :=
  let weightDict := f.vertices.foldl (fun d vi =>
    (vmap.getD vi []).foldl (fun d2 p => upsertW d2 p.1 p.2) d) []
  match weightDict.map (fun p => (p.2, p.1)) with
  | [] => "(null)".data
  | p :: rest => (rest.foldl (fun best q => if wnGt q best then q else best) p).2

/-- Everything the per-face loop reads but does not write. -/
structure FaceEnv where
  cfg : Config
  ob : BObject
  me : Mesh
  faceuv : Bool
  sg : List Nat
  materials : List (Option Material)
  material_names : List (Option Str)
  uvmap : List (Nat × List Nat)
  l2n : List Nat
  totverts : Nat
  totuvco : Nat
  totno : Nat
  vgroupsMap : List (List (Str × ℚ))

/-- The per-face mutable context: `contextMat`/`contextSmooth` (sentinels
modeled as `none`; the code uses impossible values `(0,0)` and `None`),
`currentVGroup`, and the material registries. -/
structure FaceCtx where
  contextMat : Option MatKey
  contextSmooth : Option Nat
  currentVGroup : Str
  mtl : MtlState

/-- The polygroup `g` line step (source lines 561-567). -/
def vgStepF (env : FaceEnv) (cur : Str) (f : Polygon) : List Str × Str :=
  if env.cfg.EXPORT_POLYGROUPS && !env.ob.vertex_groups.isEmpty then
    (if findVertexGroupName f env.vgroupsMap ≠ cur then
       ([gLine (findVertexGroupName f env.vgroupsMap)],
        findVertexGroupName f env.vgroupsMap)
     else ([], cur))
  else ([], cur)

/-- The material context switch (source lines 569-635): nothing if the key is
current; a null-material directive for the `(None, None)` key; otherwise
resolve/register the key and emit `usemtl` (each optionally preceded by a
material group line). -/
def matStepF (env : FaceEnv) (ctxMat : Option MatKey) (mtl : MtlState)
    (key : MatKey) (f_mat : Nat) : List Str × MtlState :=
  if some key = ctxMat then ([], mtl)
  else if key.1 = none ∧ key.2 = none then
    ((if env.cfg.EXPORT_GROUP_BY_MAT then
        [gLine (name_compat (some env.ob.name) ++
          '_' :: name_compat (some env.ob.data_name))]
      else []) ++
     (if env.cfg.EXPORT_MTL then [usemtlLine ("(null)".data)] else []),
     mtl)
  else
    let r := resolveMat mtl key (env.materials.getD f_mat none)
    ((if env.cfg.EXPORT_GROUP_BY_MAT then
        [gLine (name_compat (some env.ob.name) ++
          '_' :: name_compat (some env.ob.data_name) ++ '_' :: r.1)]
      else []) ++
     (if env.cfg.EXPORT_MTL then [usemtlLine r.1] else []),
     r.2)

/-- The smoothing context switch (source lines 637-646). -/
def sStepF (env : FaceEnv) (ctxSmooth : Option Nat) (f_smooth : Nat)
    (f_index : Nat) : List Str × Option Nat :=
  if some f_smooth ≠ ctxSmooth then
    ((if f_smooth ≠ 0 then
        (if !env.sg.isEmpty then [sLineNum (env.sg.getD f_index 0)]
         else [("s 1".data)])
      else [("s off".data)]),
     some f_smooth)
  else ([], ctxSmooth)

/-- The `f`-line tokens (source lines 648-693): one token per corner, in one
of the four grammars selected by the UV/normal flags. -/
def faceTokens (env : FaceEnv) (f : Polygon) (f_index : Nat) : Str :=
  ((f.vertices.zip f.loop_indices).enum.map (fun e =>
    let v_idx := e.2.1
    if env.faceuv then
      if env.cfg.EXPORT_NORMALS then
        ' ' :: decRepr (env.totverts + v_idx) ++
          '/' :: decRepr (env.totuvco +
            ((alookup env.uvmap f_index).getD []).getD e.1 0) ++
          '/' :: decRepr (env.totno + env.l2n.getD e.2.2 0)
      else
        ' ' :: decRepr (env.totverts + v_idx) ++
          '/' :: decRepr (env.totuvco +
            ((alookup env.uvmap f_index).getD []).getD e.1 0)
    else
      if env.cfg.EXPORT_NORMALS then
        ' ' :: decRepr (env.totverts + v_idx) ++
          '/' :: '/' :: decRepr (env.totno + env.l2n.getD e.2.2 0)
      else
        ' ' :: decRepr (env.totverts + v_idx))).join

/-- One iteration of the face loop (source lines 548-693).  `f_smooth` is a
`Nat` encoding Python's numeric equality `False = 0`, `True = 1`,
group ids as themselves. -/
def faceStep (env : FaceEnv) (ctx : FaceCtx) (fp : Polygon × Nat) :
    List Str × FaceCtx :=
  let f := fp.1
  let f_index := fp.2
  let f_smooth0 : Nat := if f.use_smooth then 1 else 0
  let f_smooth : Nat :=
    if f_smooth0 ≠ 0 && !env.sg.isEmpty then env.sg.getD f_index 0 else f_smooth0
  let f_mat := min f.material_index (env.materials.length - 1)
  let key : MatKey := (env.material_names.getD f_mat none, none)
  let vgStep := vgStepF env ctx.currentVGroup f
  let matStep := matStepF env ctx.contextMat ctx.mtl key f_mat
  let sStep := sStepF env ctx.contextSmooth f_smooth f_index
  (vgStep.1 ++ matStep.1 ++ sStep.1 ++ [fLine (faceTokens env f f_index)],
   ⟨some key, sStep.2, vgStep.2, matStep.2⟩)

def faceLoop (env : FaceEnv) : List (Polygon × Nat) → FaceCtx →
    List Str × FaceCtx
  | [], ctx => ([], ctx)
  | fp :: rest, ctx =>
    let r := faceStep env ctx fp
    let rr := faceLoop env rest r.2
    (r.1 ++ rr.1, rr.2)

/-- The active UV layer data (`me.uv_layers.active.data`, modeled by the
`uv_active` index). -/
def activeUVLayer (me : Mesh) : List (ℚ × ℚ) := me.uv_layers.getD me.uv_active []

/-- `faceuv` (source lines 357-362). -/
def faceuvOf (cfg : Config) (me : Mesh) : Bool :=
  cfg.EXPORT_UV && !me.uv_layers.isEmpty

/-- The UV section result: `(uv_face_mapping, vt lines, (uv_dict, count))`;
trivial when UVs are off or absent. -/
def meshUVr (cfg : Config) (me : Mesh) :
    List (Nat × List Nat) × List Str × (List ((Nat × ℤ × ℤ) × Nat) × Nat) :=
  if faceuvOf cfg me then uvLoop me (activeUVLayer me) (sortedPairs cfg me) ([], 0)
  else ([], [], ([], 0))

/-- The normal section result, trivial when normals are off. -/
def meshNr (cfg : Config) (me : Mesh) : List Nat × List Str × Nat :=
  if cfg.EXPORT_NORMALS then normalsSection me (sortedPairs cfg me)
  else ([], [], 0)

/-- The `o`/`g` object-name line (source lines 446-460). -/
def meshHeaderLines (cfg : Config) (ob : BObject) : List Str :=
  if cfg.EXPORT_BLEN_OBS || cfg.EXPORT_GROUP_BY_OB then
    (if cfg.EXPORT_BLEN_OBS then
      [oLine (if ob.name = ob.data_name then name_compat (some ob.name)
        else name_compat (some ob.name) ++ '_' :: name_compat (some ob.data_name))]
     else
      [gLine (if ob.name = ob.data_name then name_compat (some ob.name)
        else name_compat (some ob.name) ++ '_' :: name_compat (some ob.data_name))])
  else []

/-- The loose-edge `l` lines (source lines 697-707). -/
def meshEdgeLines (cfg : Config) (me : Mesh) (st : WState) : List Str :=
  (meshEdges cfg me).filterMap (fun ed =>
    if ed.is_loose then
      some (lLine (st.totverts + ed.vertices.1) (st.totverts + ed.vertices.2))
    else none)

/-- The read-only per-face environment assembled by the mesh branch. -/
def meshFaceEnv (cfg : Config) (ob : BObject) (me : Mesh) (st : WState) :
    FaceEnv :=
  ⟨cfg, ob, me, faceuvOf cfg me, activeSG cfg me, effMaterials me,
   effMaterialNames me, (meshUVr cfg me).1, (meshNr cfg me).1,
   st.totverts, st.totuvco, st.totno, vgroupsMapOf ob me⟩

/-- The whole mesh branch of the object loop (source lines 348-715, after the
external geometry steps). -/
def processMesh (cfg : Config) (ob : BObject) (me : Mesh) (st : WState) :
    List Str × WState :=
  if emptyCheck cfg me then ([], st)
  else
    (meshHeaderLines cfg ob ++
     me.vertices.map (fun v => vLine v.co) ++
     (meshUVr cfg me).2.1 ++
     (meshNr cfg me).2.1 ++
     (faceLoop (meshFaceEnv cfg ob me st) (sortedPairs cfg me)
       ⟨none, none, [], st.mtl⟩).1 ++
     meshEdgeLines cfg me st,
     { totverts := st.totverts + me.vertices.length,
       totuvco := st.totuvco + (meshUVr cfg me).2.2.2,
       totno := st.totno + (meshNr cfg me).2.2,
       mtl := (faceLoop (meshFaceEnv cfg ob me st) (sortedPairs cfg me)
         ⟨none, none, [], st.mtl⟩).2.mtl })

/-! ### The object loop and top level -/

def nurbsRoute (cfg : Config) (ob : BObject) : Bool :=
  cfg.EXPORT_CURVE_AS_NURBS && test_nurbs_compat ob

/-- One `(ob, ob_mat)` iteration of the inner loop (source lines 322-715):
curve route, conversion failure, or mesh path. -/
def processObject (cfg : Config) (st : WState) (ob : BObject) :
    List Str × WState :=
  if nurbsRoute cfg ob then
    let r := write_nurb ob
    (r.1, { st with totverts := st.totverts + r.2 })
  else
    match ob.to_mesh with
    | none => ([], st)
    | some me => processMesh cfg ob me st

def processObjects (cfg : Config) : List BObject → WState →
    List Str × WState
  | [], st => ([], st)
  | ob :: rest, st =>
    let r := processObject cfg st ob
    let rr := processObjects cfg rest r.2
    (r.1 ++ rr.1, rr.2)

/-- One `ob_main` iteration (source lines 303-719): skip dupli children, else
process the object and its instancer expansion. -/
def runMain (cfg : Config) (st : WState) (m : MainObject) : List Str × WState :=
  if m.ob.isDupliChild then ([], st)
  else processObjects cfg (m.ob :: m.instances) st

def runMains (cfg : Config) : List MainObject → WState → List Str × WState
  | [], st => ([], st)
  | m :: rest, st =>
    let r := runMain cfg st m
    let rr := runMains cfg rest r.2
    (r.1 ++ rr.1, rr.2)

/-- Counters start at 1 (source line 287), registries empty. -/
def initWState : WState := ⟨1, 1, 1, ⟨[], []⟩⟩

/-- The comment header and optional `mtllib` reference (source lines
273-284; the blend-file path in the comments is external). -/
def objHeader (cfg : Config) (mtlBase : Str) : List Str :=
  ("# Blender v2.81.6 OBJ File".data) :: ("# www.blender.org".data) ::
    (if cfg.EXPORT_MTL then ["mtllib ".data ++ mtlBase ++ (".mtl".data)] else [])

/-- `write_file`: header, then the object loop from the initial state. -/
def write_file (cfg : Config) (mtlBase : Str) (mains : List MainObject) :
    List Str × WState :=
  let r := runMains cfg mains initWState
  (objHeader cfg mtlBase ++ r.1, r.2)

/-- Recognizer for `usemtl` lines. -/
def isUsemtl : Str → Bool
  | 'u' :: 's' :: 'e' :: 'm' :: 't' :: 'l' :: ' ' :: _ => true
  | _ => false

/-- The 0-based point a negative OBJ index `-k` denotes right after the `n`
points of a spline have been written: counting back `k` from the end. -/
def objResolveNeg (n k : Nat) : Nat := n - k

def obFail : BObject :=
  ⟨('F' :: []), ('F' :: []), ObType.OTHER, [], none, [], false⟩

def mesh10 : Mesh :=
  { vertices := [⟨(0, 0, 0), []⟩],
    polygons := [⟨7, false, [0, 0, 0], [0, 0, 0]⟩],
    loops := [⟨0, (0, 0, 1)⟩],
    uv_layers := [], uv_active := 0,
    materials := [some ⟨('A' :: []), none⟩, none],
    edges := [], smooth_groups := [], smooth_groups_tot := 0 }

def cfg1w : Config :=
  ⟨false, true, false, false, false, true, true, true, false, true, false,
   false, false, false, true⟩

def mesh1w : Mesh :=
  { vertices := [⟨(0, 0, 0), []⟩, ⟨(1, 0, 0), []⟩],
    polygons := [], loops := [],
    uv_layers := [], uv_active := 0, materials := [],
    edges := [⟨(0, 1), true⟩],
    smooth_groups := [], smooth_groups_tot := 0 }

def ob1w : BObject :=
  ⟨('E' :: []), ('E' :: []), ObType.OTHER, [], some mesh1w, [], false⟩

/-! ### C2: UV deduplication -/

/-- The UV-keyed items of a mesh, flattened in processing order (faces in
sorted order, corners in loop order). -/
def uvItemsOf (cfg : Config) (me : Mesh) : List ((Nat × ℤ × ℤ) × (ℚ × ℚ)) :=
  ((sortedPairs cfg me).map (fun fp => faceUVItems me (activeUVLayer me) fp.1)).join

/-- The local UV indices assigned to the mesh's loops, flattened in the same
order (the concatenation of the `uv_face_mapping` rows as they are built). -/
def uvAssignments (cfg : Config) (me : Mesh) : List Nat :=
  ((uvLoop me (activeUVLayer me) (sortedPairs cfg me) ([], 0)).1.map Prod.snd).join

def cfg2w : Config :=
  ⟨false, true, false, false, false, true, true, true, false, true, false,
   false, false, false, true⟩

def me2w : Mesh :=
  { vertices := [⟨(0, 0, 0), []⟩, ⟨(1, 0, 0), []⟩],
    polygons := [⟨0, false, [0, 1], [0, 1]⟩],
    loops := [⟨0, (0, 0, 1)⟩, ⟨1, (0, 0, 1)⟩],
    uv_layers := [[(0, 0), (1, 0)]], uv_active := 0,
    materials := [], edges := [],
    smooth_groups := [], smooth_groups_tot := 0 }

/-- The registry invariant maintained by the resolver: the two dicts are
mutually inverse (on the name component) and both key sets are duplicate
free. -/
def RInv (st : MtlState) : Prop :=
  (∀ k nmm, alookup st.mtl_dict k = some nmm →
     alookup st.mtl_rev_dict nmm.1 = some k) ∧
  (∀ n k, alookup st.mtl_rev_dict n = some k →
     ∃ nmm, alookup st.mtl_dict k = some nmm ∧ nmm.1 = n) ∧
  (st.mtl_dict.map Prod.fst).Nodup ∧
  (st.mtl_rev_dict.map Prod.fst).Nodup

def kA : MatKey := (some ('a' :: []), none)

def kB : MatKey := (some ('b' :: []), none)

def st3a : MtlState := (resolveMat ⟨[], []⟩ kA none).2

def st3b : MtlState := (resolveMat st3a kB none).2

def st6 : MtlState :=
  ⟨[((some ('x' :: []), none), ('M' :: [], none)),
    ((some ('y' :: []), none), ("M_NONE".data, none))],
   [(('M' :: []), (some ('x' :: []), none)),
    ("M_NONE".data, (some ('y' :: []), none))]⟩

def key6 : MatKey := (some ('M' :: []), none)

def regC5 : List (MatKey × (Str × Option Material)) :=
  [((some ('b' :: []), none), (('b' :: []), none)),
   ((some ('a' :: []), none), (('a' :: []), none))]

/-! ### C4: the null-material key and directive -/

def cfg4 : Config :=
  ⟨false, true, false, false, false, true, true, true, false, true, false,
   false, false, false, true⟩

def poly4 : Polygon := ⟨0, false, [0, 1, 2], [0, 1, 2]⟩

def mesh4 : Mesh :=
  { vertices := [⟨(0, 0, 0), []⟩, ⟨(1, 0, 0), []⟩, ⟨(0, 1, 0), []⟩],
    polygons := [poly4],
    loops := [⟨0, (0, 0, 1)⟩, ⟨1, (0, 0, 1)⟩, ⟨2, (0, 0, 1)⟩],
    uv_layers := [], uv_active := 0, materials := [], edges := [],
    smooth_groups := [], smooth_groups_tot := 0 }

def ob4 : BObject :=
  ⟨('T' :: []), ('T' :: []), ObType.OTHER, [], some mesh4, [], false⟩

def poly4n : Polygon := ⟨0, false, [0, 1, 2], [0, 1, 2]⟩

def mesh4n : Mesh :=
  { vertices := [⟨(0, 0, 0), []⟩, ⟨(1, 0, 0), []⟩, ⟨(0, 1, 0), []⟩],
    polygons := [poly4n],
    loops := [⟨0, (0, 0, 1)⟩, ⟨1, (0, 0, 1)⟩, ⟨2, (0, 0, 1)⟩],
    uv_layers := [], uv_active := 0, materials := [none], edges := [],
    smooth_groups := [], smooth_groups_tot := 0 }

def ob4n : BObject :=
  ⟨('U' :: []), ('U' :: []), ObType.OTHER, [], some mesh4n, [], false⟩

def env4n : FaceEnv :=
  ⟨cfg4, ob4n, mesh4n, false, [], effMaterials mesh4n,
   effMaterialNames mesh4n, [], [], 1, 1, 1, []⟩

/-- The number of characters after the last `.` of a token. -/
def decimalsAfterDot (s : Str) : Nat :=
  (s.reverse.takeWhile (fun c => c != '.')).length

def s7 : Spline :=
  { type := SplineType.POLY, order_u := 2, point_count_v := 1,
    points := [(0, 0, 0), (1, 0, 0), (2, 0, 0), (3, 0, 0)],
    use_cyclic_u := false, use_endpoint_u := false }

/-! ## Theorems -/

theorem decDigitsAux_eq : ∀ fuel n, n ≤ fuel → decDigitsAux fuel n = Nat.digits 10 n
  | 0, n, h => by
    have : n = 0 := by omega
    subst this
    simp [decDigitsAux]
  | fuel + 1, 0, _ => by simp [decDigitsAux]
  | fuel + 1, m + 1, h => by
    rw [decDigitsAux, Nat.digits_def' (by norm_num : (1:Nat) < 10) (Nat.succ_pos m)]
    rw [decDigitsAux_eq fuel ((m + 1) / 10) (by
      have := Nat.div_lt_self (Nat.succ_pos m) (by norm_num : (1:Nat) < 10)
      omega)]

/-- `decRepr` in terms of `Nat.digits`, for proofs. -/
theorem decRepr_def (n : Nat) : decRepr n =
    if n = 0 then ['0'] else ((Nat.digits 10 n).map Nat.digitChar).reverse := by
  unfold decRepr
  by_cases h : n = 0 <;> simp [h, decDigitsAux_eq n n (le_refl n)]

/-! ### Basic lemmas about decimal representations -/

theorem digitChar_ne_space {d : Nat} (hd : d < 10) : Nat.digitChar d ≠ ' ' := by
  interval_cases d <;> decide

theorem digitChar_ne_dot {d : Nat} (hd : d < 10) : Nat.digitChar d ≠ '.' := by
  interval_cases d <;> decide

theorem digitChar_inj {a b : Nat} (ha : a < 10) (hb : b < 10) :
    Nat.digitChar a = Nat.digitChar b → a = b := by
  interval_cases a <;> interval_cases b <;> decide

theorem decRepr_ne_nil (n : Nat) : decRepr n ≠ [] := by
  rw [decRepr_def]
  split
  · simp
  · next h =>
    simp only [ne_eq, List.reverse_eq_nil_iff, List.map_eq_nil_iff]
    exact Nat.digits_ne_nil_iff_ne_zero.mpr h

theorem mem_decRepr {n : Nat} {c : Char} (hc : c ∈ decRepr n) :
    ∃ d, d < 10 ∧ c = Nat.digitChar d := by
  rw [decRepr_def] at hc
  split at hc
  · refine ⟨0, by norm_num, ?_⟩
    simp at hc
    simp [hc]
    decide
  · next h =>
    rw [List.mem_reverse, List.mem_map] at hc
    obtain ⟨d, hd, rfl⟩ := hc
    exact ⟨d, Nat.digits_lt_base (by norm_num) hd, rfl⟩

theorem decRepr_ne_space {n : Nat} {c : Char} (hc : c ∈ decRepr n) : c ≠ ' ' := by
  obtain ⟨d, hd, rfl⟩ := mem_decRepr hc
  exact digitChar_ne_space hd

theorem decRepr_ne_dot {n : Nat} {c : Char} (hc : c ∈ decRepr n) : c ≠ '.' := by
  obtain ⟨d, hd, rfl⟩ := mem_decRepr hc
  exact digitChar_ne_dot hd

theorem map_digitChar_inj : ∀ l₁ l₂ : List Nat, (∀ x ∈ l₁, x < 10) →
    (∀ x ∈ l₂, x < 10) → l₁.map Nat.digitChar = l₂.map Nat.digitChar → l₁ = l₂
  | [], [], _, _, _ => rfl
  | [], _ :: _, _, _, h => by simp at h
  | _ :: _, [], _, _, h => by simp at h
  | a :: l₁, b :: l₂, h₁, h₂, h => by
    simp only [List.map_cons, List.cons.injEq] at h
    have hab := digitChar_inj (h₁ a (by simp)) (h₂ b (by simp)) h.1
    have := map_digitChar_inj l₁ l₂ (fun x hx => h₁ x (by simp [hx]))
      (fun x hx => h₂ x (by simp [hx])) h.2
    simp [hab, this]

theorem decRepr_inj {n m : Nat} (h : decRepr n = decRepr m) : n = m := by
  rw [decRepr_def, decRepr_def] at h
  by_cases hn : n = 0 <;> by_cases hm : m = 0 <;> simp [hn, hm] at h ⊢
  · -- n = 0, m ≠ 0: '0' is the digit string of 0 only
    have : (Nat.digits 10 m).map Nat.digitChar = ['0'] := by
      have := congrArg List.reverse h
      simpa using this.symm
    have hdig : Nat.digits 10 m = [0] :=
      map_digitChar_inj _ [0] (fun x hx => Nat.digits_lt_base (by norm_num) hx)
        (by norm_num) (by simpa using this)
    have := Nat.ofDigits_digits 10 m
    rw [hdig] at this
    simp [Nat.ofDigits] at this
    exact absurd this.symm hm
  · have : (Nat.digits 10 n).map Nat.digitChar = ['0'] := by
      have := congrArg List.reverse h
      simpa using this
    have hdig : Nat.digits 10 n = [0] :=
      map_digitChar_inj _ [0] (fun x hx => Nat.digits_lt_base (by norm_num) hx)
        (by norm_num) (by simpa using this)
    have := Nat.ofDigits_digits 10 n
    rw [hdig] at this
    simp [Nat.ofDigits] at this
    exact absurd this.symm hn
  · have hrev := h
    have hdig := map_digitChar_inj _ _
      (fun x hx => Nat.digits_lt_base (by norm_num) hx)
      (fun x hx => Nat.digits_lt_base (by norm_num) hx) hrev
    have h1 := Nat.ofDigits_digits 10 n
    have h2 := Nat.ofDigits_digits 10 m
    rw [hdig] at h1
    rw [h1] at h2
    exact h2

theorem pad_space_inj : ∀ (a b : Nat) (r₁ r₂ : Str), r₁ ≠ [] → r₂ ≠ [] →
    (∀ c ∈ r₁, c ≠ ' ') → (∀ c ∈ r₂, c ≠ ' ') →
    List.replicate a ' ' ++ r₁ = List.replicate b ' ' ++ r₂ → r₁ = r₂
  | 0, 0, r₁, r₂, _, _, _, _, h => by simpa using h
  | 0, b + 1, r₁, r₂, h₁, _, hc₁, _, h => by
    match r₁, h₁ with
    | c :: r₁, _ =>
      simp only [List.replicate_zero, List.replicate_succ, List.nil_append,
        List.cons_append, List.cons.injEq] at h
      exact absurd h.1 (hc₁ c (by simp))
  | a + 1, 0, r₁, r₂, _, h₂, _, hc₂, h => by
    match r₂, h₂ with
    | c :: r₂, _ =>
      simp only [List.replicate_zero, List.replicate_succ, List.nil_append,
        List.cons_append, List.cons.injEq] at h
      exact absurd h.1.symm (hc₂ c (by simp))
  | a + 1, b + 1, r₁, r₂, h₁, h₂, hc₁, hc₂, h => by
    simp only [List.replicate_succ, List.cons_append, List.cons.injEq] at h
    exact pad_space_inj a b r₁ r₂ h₁ h₂ hc₁ hc₂ h.2

theorem fmt3_inj {n m : Nat} (h : fmt3 n = fmt3 m) : n = m := by
  unfold fmt3 at h
  exact decRepr_inj (pad_space_inj _ _ _ _ (decRepr_ne_nil n) (decRepr_ne_nil m)
    (fun _ hc => decRepr_ne_space hc) (fun _ hc => decRepr_ne_space hc) h)

theorem alookup_append_of_isSome {K V : Type} [DecidableEq K]
    {d e : List (K × V)} {k : K}
    (h : (alookup d k).isSome) : alookup (d ++ e) k = alookup d k := by
  induction d with
  | nil => simp [alookup] at h
  | cons p t ih =>
    obtain ⟨a, v⟩ := p
    by_cases hak : a = k <;> simp [alookup, hak] at h ⊢
    exact ih h

theorem alookup_append_of_none {K V : Type} [DecidableEq K]
    {d e : List (K × V)} {k : K}
    (h : alookup d k = none) : alookup (d ++ e) k = alookup e k := by
  induction d with
  | nil => simp
  | cons p t ih =>
    obtain ⟨a, v⟩ := p
    by_cases hak : a = k <;> simp [alookup, hak] at h ⊢
    exact ih h

theorem alookup_eq_none_iff {K V : Type} [DecidableEq K]
    {d : List (K × V)} {k : K} :
    alookup d k = none ↔ k ∉ d.map Prod.fst := by
  induction d with
  | nil => simp [alookup]
  | cons p t ih =>
    obtain ⟨a, v⟩ := p
    by_cases hak : a = k
    · simp [alookup, hak]
    · simp only [alookup, hak, if_false, List.map_cons, List.mem_cons, ih]
      constructor
      · rintro hnm (rfl | hm)
        · exact hak rfl
        · exact hnm hm
      · intro hnm hm
        exact hnm (Or.inr hm)

theorem alookup_mem {K V : Type} [DecidableEq K] {d : List (K × V)}
    {k : K} {v : V}
    (h : alookup d k = some v) : (k, v) ∈ d := by
  induction d with
  | nil => simp [alookup] at h
  | cons p t ih =>
    obtain ⟨a, w⟩ := p
    by_cases hak : a = k <;> simp [alookup, hak] at h
    · simp [← hak, ← h]
    · simp [ih h]

theorem alookup_singleton_self {K V : Type} [DecidableEq K] (k : K) (v : V) :
    alookup [(k, v)] k = some v := by simp [alookup]

theorem processKeys_out_length {K V : Type} [DecidableEq K]
    (ks : List (K × V)) (st : List (K × Nat) × Nat) :
    (processKeys ks st).1.length = ks.length := by
  induction ks generalizing st with
  | nil => rfl
  | cons kv ks ih =>
    obtain ⟨k, v⟩ := kv
    obtain ⟨d, c⟩ := st
    simp only [processKeys]
    cases alookup d k <;> simp [ih]

theorem processKeys_append {K V : Type} [DecidableEq K]
    (a b : List (K × V)) (st : List (K × Nat) × Nat) :
    processKeys (a ++ b) st =
      ((processKeys a st).1 ++ (processKeys b (processKeys a st).2.2).1,
       (processKeys a st).2.1 ++ (processKeys b (processKeys a st).2.2).2.1,
       (processKeys b (processKeys a st).2.2).2.2) := by
  induction a generalizing st with
  | nil => simp [processKeys]
  | cons kv a ih =>
    obtain ⟨k, v⟩ := kv
    obtain ⟨d, c⟩ := st
    simp only [List.cons_append, processKeys]
    cases alookup d k <;> simp [ih]

theorem processKeys_dict_extends {K V : Type} [DecidableEq K]
    (ks : List (K × V)) (d : List (K × Nat))
    (c : Nat) : ∃ e, (processKeys ks (d, c)).2.2.1 = d ++ e := by
  induction ks generalizing d c with
  | nil => exact ⟨[], by simp [processKeys]⟩
  | cons kv ks ih =>
    obtain ⟨k, v⟩ := kv
    simp only [processKeys]
    cases h : alookup d k with
    | some idx => simpa using ih d c
    | none =>
      obtain ⟨e, he⟩ := ih (d ++ [(k, c)]) (c + 1)
      exact ⟨(k, c) :: e, by simp [he]⟩

theorem DInv_nil {K : Type} : DInv ([] : List (K × Nat)) 0 := by
  refine ⟨rfl, ?_, by simp⟩
  intro j h
  simp at h

theorem DInv_snoc {K : Type} [DecidableEq K] {d : List (K × Nat)}
    {c : Nat} (hinv : DInv d c) (k : K)
    (hk : alookup d k = none) : DInv (d ++ [(k, c)]) (c + 1) := by
  obtain ⟨hc, hval, hnd⟩ := hinv
  refine ⟨by simp [hc], ?_, ?_⟩
  · intro j h
    rcases Nat.lt_or_ge j d.length with hj | hj
    · rw [List.get_append _ hj]
      exact hval j hj
    · have hj' : j = d.length := by
        simp at h
        omega
      subst hj'
      simp [hc, List.get_append_right]
  · rw [List.map_append, List.nodup_append]
    refine ⟨hnd, by simp, ?_⟩
    intro a ha hb
    simp at hb
    subst hb
    exact (alookup_eq_none_iff.mp hk) ha

theorem DInv_processKeys {K V : Type} [DecidableEq K] {ks : List (K × V)}
    {d : List (K × Nat)} {c : Nat}
    (hinv : DInv d c) : DInv (processKeys ks (d, c)).2.2.1
      (processKeys ks (d, c)).2.2.2 := by
  induction ks generalizing d c with
  | nil => exact hinv
  | cons kv ks ih =>
    obtain ⟨k, v⟩ := kv
    simp only [processKeys]
    cases h : alookup d k with
    | some idx => exact ih hinv
    | none => exact ih (DInv_snoc hinv k h)

/-- The value assigned to each item is what the final dict stores for its
key. -/
theorem processKeys_out_lookup {K V : Type} [DecidableEq K]
    {ks : List (K × V)} {d : List (K × Nat)} {c : Nat} : ∀ {i : Nat} {k : K} {v : V}, ks[i]? = some (k, v) →
    ∃ idx, (processKeys ks (d, c)).1[i]? = some idx ∧
      alookup (processKeys ks (d, c)).2.2.1 k = some idx := by
  induction ks generalizing d c with
  | nil => intro i k v h; simp at h
  | cons kv ks ih =>
    intro i k v h
    obtain ⟨k0, v0⟩ := kv
    match i with
    | 0 =>
      simp only [List.getElem?_cons_zero, Option.some.injEq, Prod.mk.injEq] at h
      obtain ⟨rfl, -⟩ := h
      simp only [processKeys]
      cases hl : alookup d k0 with
      | some idx =>
        refine ⟨idx, by simp, ?_⟩
        obtain ⟨e, he⟩ := processKeys_dict_extends (V := V) ks d c
        simp only [he]
        rw [alookup_append_of_isSome (by simp [hl])]
        exact hl
      | none =>
        refine ⟨c, by simp, ?_⟩
        obtain ⟨e, he⟩ := processKeys_dict_extends (V := V) ks (d ++ [(k0, c)]) (c + 1)
        simp only [he, List.append_assoc]
        rw [alookup_append_of_none hl]
        rw [alookup_append_of_isSome (by simp [alookup_singleton_self])]
        exact alookup_singleton_self k0 c
    | i + 1 =>
      simp only [List.getElem?_cons_succ] at h
      simp only [processKeys]
      cases hl : alookup d k0 with
      | some idx =>
        obtain ⟨idx2, h1, h2⟩ := ih (d := d) (c := c) h
        exact ⟨idx2, by simpa using h1, h2⟩
      | none =>
        obtain ⟨idx2, h1, h2⟩ := ih (d := d ++ [(k0, c)]) (c := c + 1) h
        exact ⟨idx2, by simpa using h1, h2⟩

/-- Under the invariant, stored indices determine keys: the dict is injective
as a map from keys to indices. -/
theorem alookup_val_inj {K : Type} [DecidableEq K] {d : List (K × Nat)}
    {c : Nat} (hinv : DInv d c)
    {k₁ k₂ : K} {idx : Nat} (h₁ : alookup d k₁ = some idx)
    (h₂ : alookup d k₂ = some idx) : k₁ = k₂ := by
  obtain ⟨-, hval, -⟩ := hinv
  have m₁ := alookup_mem h₁
  have m₂ := alookup_mem h₂
  obtain ⟨j₁, hj₁⟩ := List.get_of_mem m₁
  obtain ⟨j₂, hj₂⟩ := List.get_of_mem m₂
  have e₁ : idx = j₁.1 := by have h := hval j₁.1 j₁.2; rw [hj₁] at h; exact h
  have e₂ : idx = j₂.1 := by have h := hval j₂.1 j₂.2; rw [hj₂] at h; exact h
  have hj : j₁ = j₂ := Fin.ext (by omega)
  subst hj
  rw [hj₁] at hj₂
  exact congrArg Prod.fst hj₂

/-- At a key's first occurrence the assigned index is the base counter plus
the number of distinct new keys seen so far. -/
theorem processKeys_first_occ {K V : Type} [DecidableEq K]
    {ks : List (K × V)} {d : List (K × Nat)} {c : Nat} : ∀ {i : Nat} {k : K} {v : V}, ks[i]? = some (k, v) →
    (∀ j (k2 : K) (v2 : V), j < i → ks[j]? = some (k2, v2) → k2 ≠ k) →
    alookup d k = none →
    (processKeys ks (d, c)).1[i]? =
      some (c + (((ks.take i).map (fun p => p.1)).toFinset \
        (d.map Prod.fst).toFinset).card) := by
  induction ks generalizing d c with
  | nil => intro i k v h; simp at h
  | cons kv ks ih =>
    intro i k v h hfirst hlook
    obtain ⟨k0, v0⟩ := kv
    match i with
    | 0 =>
      simp only [List.getElem?_cons_zero, Option.some.injEq, Prod.mk.injEq] at h
      obtain ⟨rfl, -⟩ := h
      simp [processKeys, hlook]
    | i + 1 =>
      simp only [List.getElem?_cons_succ] at h
      simp only [processKeys]
      have hk0 : k0 ≠ k := hfirst 0 k0 v0 (by omega) (by simp)
      have hfirst2 : ∀ j (k2 : K) (v2 : V), j < i → ks[j]? = some (k2, v2) → k2 ≠ k := by
        intro j k2 v2 hj hjget
        exact hfirst (j + 1) k2 v2 (by omega) (by simpa using hjget)
      cases hl : alookup d k0 with
      | some idx =>
        have hmem : k0 ∈ d.map Prod.fst := by
          by_contra hmem
          rw [← alookup_eq_none_iff (V := Nat)] at hmem
          simp [hmem] at hl
        have hrec := ih (d := d) (c := c) h hfirst2 hlook
        simp only [List.getElem?_cons_succ, hrec, List.take_succ_cons, List.map_cons,
          List.toFinset_cons]
        congr 3
        apply Finset.ext
        intro x
        simp only [Finset.mem_sdiff, Finset.mem_insert]
        constructor
        · rintro ⟨hx, hxd⟩
          exact ⟨Or.inr hx, hxd⟩
        · rintro ⟨hx | hx, hxd⟩
          · exact absurd (hx ▸ hmem) (by simpa [hx] using hxd)
          · exact ⟨hx, hxd⟩
      | none =>
        have hk0d : k0 ∉ (d.map Prod.fst).toFinset := by
          simp only [List.mem_toFinset]
          exact alookup_eq_none_iff.mp hl
        have hlook2 : alookup (d ++ [(k0, c)]) k = none := by
          rw [alookup_append_of_none hlook]
          simp [alookup, hk0]
        have hD : (List.map Prod.fst (d ++ [(k0, c)])).toFinset =
            insert k0 (d.map Prod.fst).toFinset := by
          apply Finset.ext
          intro x
          simp [Or.comm]
        have hset : (insert k0 (((ks.take i).map (fun p => p.1)).toFinset) \
            (d.map Prod.fst).toFinset) =
            insert k0 (((ks.take i).map (fun p => p.1)).toFinset \
              (insert k0 (d.map Prod.fst).toFinset)) := by
          apply Finset.ext
          intro x
          by_cases hx : x = k0 <;>
            simp only [List.mem_toFinset] at hk0d <;>
            simp [hx, Finset.mem_sdiff, hk0d] <;> tauto
        have hrec := ih (d := d ++ [(k0, c)]) (c := c + 1) h hfirst2 hlook2
        rw [hD] at hrec
        simp only [List.getElem?_cons_succ, hrec, List.take_succ_cons, List.map_cons,
          List.toFinset_cons]
        rw [hset, Finset.card_insert_of_not_mem (by simp)]
        congr 1
        omega

/-! ### `v`-line counting -/

@[simp] theorem isV_vLine (co : ℚ × ℚ × ℚ) : isV (vLine co) = true := rfl

@[simp] theorem isV_vtLine (uv : ℚ × ℚ) : isV (vtLine uv) = false := rfl

@[simp] theorem isV_vnLine (k : ℤ × ℤ × ℤ) : isV (vnLine k) = false := rfl

@[simp] theorem isV_oLine (n : Str) : isV (oLine n) = false := rfl

@[simp] theorem isV_gLine (n : Str) : isV (gLine n) = false := rfl

@[simp] theorem isV_usemtlLine (n : Str) : isV (usemtlLine n) = false := rfl

@[simp] theorem isV_sLineNum (n : Nat) : isV (sLineNum n) = false := rfl

@[simp] theorem isV_fLine (t : Str) : isV (fLine t) = false := rfl

@[simp] theorem isV_lLine (a b : Nat) : isV (lLine a b) = false := rfl

@[simp] theorem isV_curvLine (ls : List ℤ) : isV (curvLine ls) = false := rfl

@[simp] theorem isV_parmLine (vs : List ℚ) : isV (parmLine vs) = false := rfl

@[simp] theorem isV_degLine (d : Nat) : isV (degLine d) = false := rfl

@[simp] theorem countV_nil : countV [] = 0 := rfl

@[simp] theorem countV_append (a b : List Str) :
    countV (a ++ b) = countV a + countV b := List.countP_append _ _ _

theorem countV_eq_zero {l : List Str} (h : ∀ x ∈ l, isV x = false) :
    countV l = 0 := by
  rw [countV, List.countP_eq_length_filter, List.length_eq_zero,
    List.filter_eq_nil]
  intro a ha
  simp [h a ha]

theorem countV_map_vLine {α : Type} (f : α → ℚ × ℚ × ℚ) (l : List α) :
    countV (l.map (fun x => vLine (f x))) = l.length := by
  rw [countV, List.countP_map]
  simp [Function.comp_def]

theorem countV_vtLines {α : Type} (f : α → ℚ × ℚ) (l : List α) :
    countV (l.map (fun x => vtLine (f x))) = 0 :=
  countV_eq_zero (by intro x hx; simp at hx; obtain ⟨a, -, rfl⟩ := hx; simp)

theorem countV_vnLines {α : Type} (f : α → ℤ × ℤ × ℤ) (l : List α) :
    countV (l.map (fun x => vnLine (f x))) = 0 :=
  countV_eq_zero (by intro x hx; simp at hx; obtain ⟨a, -, rfl⟩ := hx; simp)

/-! ### C8: the curve index encoding -/

theorem baseNegIdx_length (n : Nat) : (baseNegIdx n).length = n := by
  simp [baseNegIdx]

theorem baseNegIdx_getElem {n m : Nat} (h : m < n) :
    (baseNegIdx n)[m]? = some (-((m : ℤ) + 1)) := by
  unfold baseNegIdx
  rw [List.getElem?_map, List.getElem?_range h]
  rfl

theorem curveIndices_getElem (deg : Nat) (closed : Bool) {n m : Nat}
    (h : m < n) : (curveIndices deg closed n)[m]? = some (-((m : ℤ) + 1)) := by
  have hlen : m < (baseNegIdx n).length := by rw [baseNegIdx_length]; exact h
  unfold curveIndices
  split
  · split
    · rw [List.getElem?_append_left hlen]
      exact baseNegIdx_getElem h
    · rw [List.getElem?_append_left hlen]
      exact baseNegIdx_getElem h
  · exact baseNegIdx_getElem h

/-- C8: for a closed POLY (degree-1) spline with 4 control points the `curv`
line references exactly `-1 -2 -3 -4 -1` (5 tokens, the first point repeated
at the end) and the point count fed to the `parm` vector grows by 1; in
general, the token at list position `n-1-i` is `-(n-i)`, which is exactly the
negative OBJ index denoting point `i` of the `n` points just written. -/
theorem C8_curv_encoding :
    (curveIndices 1 true 4 = [-1, -2, -3, -4, -1] ∧
     finalPtNum 1 true 4 = 4 + 1 ∧
     curvLine (curveIndices 1 true 4) =
       ("curv 0.0 1.0 -1 -2 -3 -4 -1".data)) ∧
    (∀ (deg : Nat) (closed : Bool) (n i : Nat), i < n →
      (curveIndices deg closed n)[n - 1 - i]? = some (-((n : ℤ) - (i : ℤ))) ∧
      objResolveNeg n (n - i) = i) := by
  refine ⟨⟨by decide, by decide, by decide⟩, ?_⟩
  intro deg closed n i h
  constructor
  · rw [curveIndices_getElem deg closed (by omega : n - 1 - i < n)]
    congr 1
    omega
  · unfold objResolveNeg
    omega

/-- Witness for C8 at the concrete 4-point closed POLY spline, point 0. -/
theorem C8_curv_encoding_witness :
    (curveIndices 1 true 4)[3]? = some (-4) ∧ objResolveNeg 4 4 = 0 := by
  have h := C8_curv_encoding.2 1 true 4 0 (by decide)
  simpa using h

/-! ### C9: conversion failure skips the object atomically -/

/-- C9: if mesh evaluation raises (modeled as `to_mesh = none`) and the
object is not routed to the curve encoder, the object contributes no lines
and the state (all three counters and the material registries) is returned
untouched. -/
theorem C9_skip_atomic (cfg : Config) (st : WState) (ob : BObject)
    (hn : nurbsRoute cfg ob = false) (hm : ob.to_mesh = none) :
    processObject cfg st ob = ([], st) := by
  simp [processObject, hn, hm]

/-- Witness for C9: a concrete failing object leaves the initial state
unchanged. -/
theorem C9_skip_atomic_witness :
    processObject ⟨false, true, false, false, true, true, true, true, false,
      true, false, false, false, false, true⟩ initWState obFail =
      ([], initWState) :=
  C9_skip_atomic _ initWState obFail (by decide) (by rfl)

/-! ### C10: the material slot lookup is total -/

/-- C10: `materials` is forced non-empty, `material_names` has the same
length, the clamped index `min(f.material_index, len-1)` is always in range,
and an out-of-range face index is attributed to the last slot. -/
theorem C10_slot_total (me : Mesh) (f : Polygon) :
    0 < (effMaterials me).length ∧
    (effMaterialNames me).length = (effMaterials me).length ∧
    effMatIndex me f < (effMaterials me).length ∧
    ((effMaterials me).length ≤ f.material_index →
      effMatIndex me f = (effMaterials me).length - 1) := by
  have hpos : 0 < (effMaterials me).length := by
    unfold effMaterials
    split
    · simp
    · next h =>
      cases hm : me.materials with
      | nil => rw [hm] at h; simp at h
      | cons a t => simp [hm]
  refine ⟨hpos, ?_, ?_, ?_⟩
  · unfold effMaterialNames effMaterials
    split <;> simp
  · unfold effMatIndex
    omega
  · intro h
    unfold effMatIndex
    omega

/-- Witness for C10: a face whose `material_index` (7) exceeds the two
slots is clamped to the last slot. -/
theorem C10_slot_total_witness :
    effMatIndex mesh10 ⟨7, false, [0, 0, 0], [0, 0, 0]⟩ <
      (effMaterials mesh10).length ∧
    effMatIndex mesh10 ⟨7, false, [0, 0, 0], [0, 0, 0]⟩ =
      (effMaterials mesh10).length - 1 := by
  have h := C10_slot_total mesh10 ⟨7, false, [0, 0, 0], [0, 0, 0]⟩
  exact ⟨h.2.2.1, h.2.2.2 (by decide)⟩

/-! ### C1: v-line accounting -/

theorem countV_map_false {α : Type} (f : α → Str)
    (hf : ∀ a, isV (f a) = false) (l : List α) : countV (l.map f) = 0 :=
  countV_eq_zero (by intro x hx; simp at hx; obtain ⟨a, -, rfl⟩ := hx; exact hf a)

theorem countV_map_true {α : Type} (f : α → Str)
    (hf : ∀ a, isV (f a) = true) (l : List α) : countV (l.map f) = l.length := by
  rw [countV, List.countP_map]
  rw [List.countP_eq_length]
  intro a _
  simpa using hf a

@[simp] theorem isV_cstypeLine : isV ("cstype bspline".data) = false := rfl

@[simp] theorem isV_endLine : isV ("end".data) = false := rfl

theorem countV_vgStepF (env : FaceEnv) (cur : Str) (f : Polygon) :
    countV (vgStepF env cur f).1 = 0 := by
  unfold vgStepF
  split_ifs <;> simp [countV, List.countP_cons]

theorem countV_matStepF (env : FaceEnv) (ctxMat : Option MatKey)
    (mtl : MtlState) (key : MatKey) (f_mat : Nat) :
    countV (matStepF env ctxMat mtl key f_mat).1 = 0 := by
  unfold matStepF
  split_ifs <;> simp [countV, List.countP_cons, List.countP_append]

theorem countV_sStepF (env : FaceEnv) (ctxSmooth : Option Nat)
    (f_smooth : Nat) (f_index : Nat) :
    countV (sStepF env ctxSmooth f_smooth f_index).1 = 0 := by
  unfold sStepF
  split_ifs <;> simp [countV, List.countP_cons] <;> decide

theorem countV_faceStep (env : FaceEnv) (ctx : FaceCtx) (fp : Polygon × Nat) :
    countV (faceStep env ctx fp).1 = 0 := by
  simp only [faceStep, countV_append, countV_vgStepF, countV_matStepF,
    countV_sStepF]
  simp [countV, List.countP_cons]

theorem countV_faceLoop (env : FaceEnv) :
    ∀ (pairs : List (Polygon × Nat)) (ctx : FaceCtx),
    countV (faceLoop env pairs ctx).1 = 0
  | [], _ => rfl
  | fp :: rest, ctx => by
    simp only [faceLoop, countV_append, countV_faceStep,
      countV_faceLoop env rest]

theorem countV_uvLoop (me : Mesh) (layer : List (ℚ × ℚ)) :
    ∀ (pairs : List (Polygon × Nat)) (st : List ((Nat × ℤ × ℤ) × Nat) × Nat),
    countV (uvLoop me layer pairs st).2.1 = 0
  | [], _ => rfl
  | (f, fi) :: rest, st => by
    simp only [uvLoop, countV_append, countV_uvLoop me layer rest,
      countV_map_false vtLine (fun a => isV_vtLine a)]

theorem countV_normalsSection (me : Mesh) (pairs : List (Polygon × Nat)) :
    countV (normalsSection me pairs).2.1 = 0 := by
  unfold normalsSection
  exact countV_map_false vnLine (fun a => isV_vnLine a) _

theorem processMesh_of_empty {cfg : Config} {me : Mesh}
    (h : emptyCheck cfg me = true) (ob : BObject) (st : WState) :
    processMesh cfg ob me st = ([], st) := by
  simp [processMesh, h]

theorem countV_meshHeaderLines (cfg : Config) (ob : BObject) :
    countV (meshHeaderLines cfg ob) = 0 := by
  unfold meshHeaderLines
  split_ifs <;> simp [countV, List.countP_cons]

theorem countV_meshUVr (cfg : Config) (me : Mesh) :
    countV (meshUVr cfg me).2.1 = 0 := by
  unfold meshUVr
  split_ifs
  · exact countV_uvLoop me _ _ _
  · rfl

theorem countV_meshNr (cfg : Config) (me : Mesh) :
    countV (meshNr cfg me).2.1 = 0 := by
  unfold meshNr
  split_ifs
  · exact countV_normalsSection me _
  · rfl

theorem countV_meshEdgeLines (cfg : Config) (me : Mesh) (st : WState) :
    countV (meshEdgeLines cfg me st) = 0 := by
  apply countV_eq_zero
  intro x hx
  unfold meshEdgeLines at hx
  simp only [List.mem_filterMap] at hx
  obtain ⟨ed, -, hed⟩ := hx
  split_ifs at hed <;> simp at hed
  subst hed
  simp

theorem countV_processMesh {cfg : Config} {me : Mesh}
    (h : emptyCheck cfg me = false) (ob : BObject) (st : WState) :
    countV (processMesh cfg ob me st).1 = me.vertices.length := by
  simp only [processMesh, h, Bool.false_eq_true, if_false, countV_append,
    countV_meshHeaderLines, countV_meshUVr, countV_meshNr,
    countV_meshEdgeLines, countV_faceLoop]
  have hv := countV_map_true (fun v : Vertex => vLine v.co)
    (fun a => isV_vLine a.co) me.vertices
  omega

theorem processMesh_totverts {cfg : Config} {me : Mesh}
    (h : emptyCheck cfg me = false) (ob : BObject) (st : WState) :
    (processMesh cfg ob me st).2.totverts = st.totverts + me.vertices.length := by
  simp [processMesh, h]

theorem countV_nurbSpline (nm : Str) (nu : Spline) :
    countV (nurbSpline nm nu).1 = (nurbSpline nm nu).2 := by
  simp only [nurbSpline]
  split_ifs <;> try rfl
  all_goals
    simp only [countV, List.countP_append, List.countP_cons, List.countP_nil]
  all_goals
    rw [← countV, countV_map_true vLine (fun a => isV_vLine a)]
  all_goals simp
  all_goals decide

theorem countV_nurbSplines (nm : Str) :
    ∀ ss : List Spline, countV (nurbSplines nm ss).1 = (nurbSplines nm ss).2
  | [] => rfl
  | nu :: rest => by
    simp only [nurbSplines, countV_append, countV_nurbSpline,
      countV_nurbSplines nm rest]

theorem processObject_totverts (cfg : Config) (st : WState) (ob : BObject) :
    (processObject cfg st ob).2.totverts =
      st.totverts + countV (processObject cfg st ob).1 := by
  unfold processObject
  split_ifs with h
  · simp [write_nurb, countV_nurbSplines]
  · cases hm : ob.to_mesh with
    | none => simp
    | some me =>
      simp only []
      cases he : emptyCheck cfg me with
      | false => rw [countV_processMesh he, processMesh_totverts he]
      | true => rw [processMesh_of_empty he]; simp

theorem processObjects_totverts (cfg : Config) :
    ∀ (obs : List BObject) (st : WState),
    (processObjects cfg obs st).2.totverts =
      st.totverts + countV (processObjects cfg obs st).1
  | [], st => by simp [processObjects, countV]
  | ob :: rest, st => by
    simp only [processObjects, countV_append]
    rw [processObjects_totverts cfg rest]
    rw [processObject_totverts]
    omega

theorem runMain_totverts (cfg : Config) (st : WState) (m : MainObject) :
    (runMain cfg st m).2.totverts = st.totverts + countV (runMain cfg st m).1 := by
  unfold runMain
  split_ifs
  · simp [countV]
  · exact processObjects_totverts cfg _ st

theorem runMains_totverts (cfg : Config) :
    ∀ (mains : List MainObject) (st : WState),
    (runMains cfg mains st).2.totverts =
      st.totverts + countV (runMains cfg mains st).1
  | [], st => by simp [runMains, countV]
  | m :: rest, st => by
    simp only [runMains, countV_append]
    rw [runMains_totverts cfg rest]
    rw [runMain_totverts]
    omega

theorem countV_objHeader (cfg : Config) (mtlBase : Str) :
    countV (objHeader cfg mtlBase) = 0 := by
  apply countV_eq_zero
  intro x hx
  unfold objHeader at hx
  simp only [List.mem_cons, List.mem_singleton] at hx
  rcases hx with rfl | hx
  · rfl
  rcases hx with rfl | hx
  · rfl
  split_ifs at hx <;> simp only [List.mem_singleton, List.not_mem_nil] at hx
  subst hx
  rfl

/-- C1: for a written mesh object, the number of emitted `v` lines equals the
mesh's vertex count and `totverts` advances by exactly that count; across the
whole run the vertex counter always equals its pre-run value plus the number
of `v` lines emitted so far (hence the base used for object N is 1 plus
the total vertex contribution of all previously written objects, the counter
starting at 1). -/
theorem C1_vertex_accounting :
    (∀ (cfg : Config) (ob : BObject) (me : Mesh) (st : WState),
      ob.to_mesh = some me → nurbsRoute cfg ob = false →
      emptyCheck cfg me = false →
      countV (processObject cfg st ob).1 = me.vertices.length ∧
      (processObject cfg st ob).2.totverts = st.totverts + me.vertices.length) ∧
    (∀ (cfg : Config) (obs : List BObject) (st : WState),
      (processObjects cfg obs st).2.totverts =
        st.totverts + countV (processObjects cfg obs st).1) ∧
    initWState.totverts = 1 ∧
    (∀ (cfg : Config) (mtlBase : Str) (mains : List MainObject),
      (write_file cfg mtlBase mains).2.totverts =
        1 + countV (write_file cfg mtlBase mains).1) := by
  refine ⟨?_, processObjects_totverts, rfl, ?_⟩
  · intro cfg ob me st hme hnr he
    have hpo : processObject cfg st ob = processMesh cfg ob me st := by
      unfold processObject
      rw [if_neg (by simp [hnr]), hme]
    rw [hpo]
    exact ⟨countV_processMesh he ob st, processMesh_totverts he ob st⟩
  · intro cfg mtlBase mains
    unfold write_file
    simp only [countV_append, countV_objHeader]
    rw [runMains_totverts cfg mains initWState]
    simp [initWState]

/-- Witness for C1 at a concrete two-vertex mesh. -/
theorem C1_vertex_accounting_witness :
    countV (processObject cfg1w initWState ob1w).1 = mesh1w.vertices.length ∧
    (processObject cfg1w initWState ob1w).2.totverts =
      initWState.totverts + mesh1w.vertices.length :=
  C1_vertex_accounting.1 cfg1w ob1w mesh1w initWState (by rfl) (by decide)
    (by decide)

theorem uvLoop_flatten (me : Mesh) (layer : List (ℚ × ℚ)) :
    ∀ (pairs : List (Polygon × Nat)) (st : List ((Nat × ℤ × ℤ) × Nat) × Nat),
    ((uvLoop me layer pairs st).1.map Prod.snd).join =
      (processKeys ((pairs.map (fun fp => faceUVItems me layer fp.1)).join) st).1 ∧
    (uvLoop me layer pairs st).2.2 =
      (processKeys ((pairs.map (fun fp => faceUVItems me layer fp.1)).join) st).2.2
  | [], st => by simp [uvLoop, processKeys]
  | (f, fi) :: rest, st => by
    have ih := uvLoop_flatten me layer rest
      (processKeys (faceUVItems me layer f) st).2.2
    simp only [uvLoop, List.map_cons, List.join]
    exact ⟨by simp [ih.1, processKeys_append],
      by simp [ih.2, processKeys_append]⟩

/-- C2: within one mesh, two loops receive the same local UV index iff they
agree on the key `(vertex index, UV rounded to 4 decimals)`; at a key's first
occurrence the assigned index is the number of distinct keys seen earlier, so
indices are assigned in order of first occurrence. -/
theorem C2_uv_dedup : ∀ (cfg : Config) (me : Mesh) (i j : Nat)
    (ki kj : Nat × ℤ × ℤ) (vi vj : ℚ × ℚ) (oi oj : Nat),
    (uvItemsOf cfg me)[i]? = some (ki, vi) →
    (uvItemsOf cfg me)[j]? = some (kj, vj) →
    (uvAssignments cfg me)[i]? = some oi →
    (uvAssignments cfg me)[j]? = some oj →
    ((oi = oj ↔ ki = kj) ∧
     ((∀ i2 k2 v2, i2 < i → (uvItemsOf cfg me)[i2]? = some (k2, v2) → k2 ≠ ki) →
       oi = (((uvItemsOf cfg me).take i).map (fun p => p.1)).toFinset.card)) := by
  intro cfg me i j ki kj vi vj oi oj hki hkj hoi hoj
  have hflat := uvLoop_flatten me (activeUVLayer me) (sortedPairs cfg me) ([], 0)
  have heq : uvAssignments cfg me = (processKeys (uvItemsOf cfg me) ([], 0)).1 := by
    rw [uvAssignments, uvItemsOf]
    exact hflat.1
  rw [heq] at hoi hoj
  have hdinv : DInv (processKeys (uvItemsOf cfg me) ([], 0)).2.2.1
      (processKeys (uvItemsOf cfg me) ([], 0)).2.2.2 :=
    DInv_processKeys DInv_nil
  obtain ⟨idxi, houti, hlooki⟩ :=
    processKeys_out_lookup (d := []) (c := 0) hki
  obtain ⟨idxj, houtj, hlookj⟩ :=
    processKeys_out_lookup (d := []) (c := 0) hkj
  rw [hoi] at houti
  rw [hoj] at houtj
  have hii : idxi = oi := by injection houti.symm
  have hjj : idxj = oj := by injection houtj.symm
  subst hii
  subst hjj
  constructor
  · constructor
    · intro hv
      subst hv
      exact alookup_val_inj hdinv hlooki hlookj
    · intro hk
      subst hk
      rw [hlooki] at hlookj
      injection hlookj
  · intro hfirst
    have := processKeys_first_occ (d := []) (c := 0) hki
      (fun i2 k2 v2 h2 hg => hfirst i2 k2 v2 h2 hg) (by rfl)
    rw [hoi] at this
    have hval := Option.some.inj this
    simpa using hval

/-- Witness for C2: in a two-corner mesh whose corners sit on different
vertices, the assigned indices 0 and 1 differ iff the keys differ, and the
first corner's index is the number of earlier distinct keys (0). -/
theorem C2_uv_dedup_witness :
    ((0 = 1 ↔ uvKeyOf me2w (activeUVLayer me2w) 0 =
        uvKeyOf me2w (activeUVLayer me2w) 1) ∧
     ((∀ i2 k2 v2, i2 < 0 → (uvItemsOf cfg2w me2w)[i2]? = some (k2, v2) →
        k2 ≠ uvKeyOf me2w (activeUVLayer me2w) 0) →
       0 = (((uvItemsOf cfg2w me2w).take 0).map (fun p => p.1)).toFinset.card)) :=
  C2_uv_dedup cfg2w me2w 0 1 _ _ _ _ 0 1 (by rfl) (by rfl) (by rfl) (by rfl)

/-! ### C3 and C6: the material name resolver -/

theorem sfxCand_inj {base : Str} {i j : Nat}
    (h : sfxCand base i = sfxCand base j) : i = j := by
  unfold sfxCand at h
  have h2 := List.append_cancel_left h
  exact fmt3_inj (List.cons.injEq _ _ _ _ ▸ h2).2

theorem revOkB_false_mem {rev : List (Str × MatKey)} {key : MatKey} {nm : Str}
    (h : revOkB rev key nm = false) : nm ∈ rev.map Prod.fst := by
  unfold revOkB at h
  cases hl : alookup rev nm with
  | none => rw [hl] at h; simp at h
  | some k0 =>
    have := alookup_mem hl
    exact List.mem_map_of_mem Prod.fst this

theorem card_nonfree_le (rev : List (Str × MatKey)) (key : MatKey)
    (base : Str) (s : Finset ℕ)
    (h : ∀ j ∈ s, revOkB rev key (sfxCand base j) = false) :
    s.card ≤ rev.length := by
  have h1 : s.card ≤ (rev.map Prod.fst).toFinset.card := by
    apply Finset.card_le_card_of_injOn (fun j => sfxCand base j)
    · intro j hj
      rw [List.mem_toFinset]
      exact revOkB_false_mem (h j hj)
    · intro a _ b _ hab
      exact sfxCand_inj hab
  calc s.card ≤ (rev.map Prod.fst).toFinset.card := h1
    _ ≤ (rev.map Prod.fst).length := List.toFinset_card_le _
    _ = rev.length := List.length_map _ _

theorem exists_free_cand (rev : List (Str × MatKey)) (key : MatKey)
    (base : Str) : ∃ j, 1 ≤ j ∧ j < 1 + (rev.length + 1) ∧
      revOkB rev key (sfxCand base j) = true := by
  by_contra hno
  push_neg at hno
  have hall : ∀ j ∈ Finset.Ico 1 (rev.length + 2),
      revOkB rev key (sfxCand base j) = false := by
    intro j hj
    rw [Finset.mem_Ico] at hj
    have := hno j hj.1 (by omega)
    simpa using this
  have := card_nonfree_le rev key base _ hall
  rw [Nat.card_Ico] at this
  omega

theorem nonfree_bound (rev : List (Str × MatKey)) (key : MatKey) (base : Str)
    (j : Nat)
    (h : ∀ j2, 1 ≤ j2 → j2 < j → revOkB rev key (sfxCand base j2) = false) :
    j ≤ rev.length + 1 := by
  have hall : ∀ j2 ∈ Finset.Ico 1 j, revOkB rev key (sfxCand base j2) = false := by
    intro j2 hj2
    rw [Finset.mem_Ico] at hj2
    exact h j2 hj2.1 hj2.2
  have := card_nonfree_le rev key base _ hall
  rw [Nat.card_Ico] at this
  omega

theorem searchSfx_free (rev : List (Str × MatKey)) (key : MatKey) (base : Str) :
    ∀ (fuel i : Nat),
    (∃ j, i ≤ j ∧ j < i + fuel ∧ revOkB rev key (sfxCand base j) = true) →
    revOkB rev key (searchSfx rev key base fuel i) = true
  | 0, i, h => by
    obtain ⟨j, h1, h2, -⟩ := h
    omega
  | fuel + 1, i, h => by
    unfold searchSfx
    by_cases hc : revOkB rev key (sfxCand base i) = true
    · simp [hc]
    · rw [if_neg hc]
      apply searchSfx_free rev key base fuel (i + 1)
      obtain ⟨j, h1, h2, h3⟩ := h
      have : j ≠ i := fun he => hc (he ▸ h3)
      exact ⟨j, by omega, by omega, h3⟩

theorem searchSfx_eq (rev : List (Str × MatKey)) (key : MatKey) (base : Str) :
    ∀ (fuel i j : Nat), i ≤ j → j < i + fuel →
    (∀ j2, i ≤ j2 → j2 < j → revOkB rev key (sfxCand base j2) = false) →
    revOkB rev key (sfxCand base j) = true →
    searchSfx rev key base fuel i = sfxCand base j
  | 0, i, j, h1, h2, _, _ => by omega
  | fuel + 1, i, j, h1, h2, hmin, hfree => by
    unfold searchSfx
    by_cases hij : i = j
    · subst hij
      simp [hfree]
    · rw [if_neg (by simp [hmin i (le_refl i) (by omega)])]
      exact searchSfx_eq rev key base fuel (i + 1) j (by omega) (by omega)
        (fun j2 ha hb => hmin j2 (by omega) hb) hfree

theorem resolveMat_state_some {st : MtlState} {key : MatKey}
    {md : Str × Option Material} (h : alookup st.mtl_dict key = some md)
    (mat : Option Material) : resolveMat st key mat = (md.1, st) := by
  simp [resolveMat, h]

theorem resolveMat_state_none {st : MtlState} {key : MatKey}
    (h : alookup st.mtl_dict key = none) (mat : Option Material) :
    (resolveMat st key mat).2.mtl_dict =
      st.mtl_dict ++ [(key, ((resolveMat st key mat).1, mat))] ∧
    (resolveMat st key mat).2.mtl_rev_dict =
      st.mtl_rev_dict ++ [((resolveMat st key mat).1, key)] := by
  simp [resolveMat, h]

theorem resolveMat_name_revOk {st : MtlState} {key : MatKey}
    (mat : Option Material) (h : alookup st.mtl_dict key = none) :
    revOkB st.mtl_rev_dict key (resolveMat st key mat).1 = true := by
  simp only [resolveMat, h]
  split_ifs with h1 h2
  · exact h1
  · exact h2
  · apply searchSfx_free
    obtain ⟨j, hj1, hj2, hj3⟩ :=
      exists_free_cand st.mtl_rev_dict key (name_compat key.1)
    exact ⟨j, hj1, hj2, hj3⟩

theorem free_of_revOk {st : MtlState} {key : MatKey} {nm : Str}
    (hinv : RInv st) (hkey : alookup st.mtl_dict key = none)
    (hok : revOkB st.mtl_rev_dict key nm = true) :
    alookup st.mtl_rev_dict nm = none := by
  unfold revOkB at hok
  cases hl : alookup st.mtl_rev_dict nm with
  | none => rfl
  | some k0 =>
    rw [hl] at hok
    simp at hok
    obtain ⟨nmm, hm, -⟩ := hinv.2.1 nm k0 hl
    rw [hok] at hm
    rw [hm] at hkey
    exact absurd hkey (by simp)

theorem RInv_resolveMat {st : MtlState} (hinv : RInv st) (key : MatKey)
    (mat : Option Material) : RInv (resolveMat st key mat).2 := by
  cases hl : alookup st.mtl_dict key with
  | some md => rw [resolveMat_state_some hl mat]; exact hinv
  | none =>
    have hok := resolveMat_name_revOk mat hl
    have hfree := free_of_revOk hinv hl hok
    obtain ⟨hd, hr⟩ := resolveMat_state_none hl mat
    obtain ⟨c1, c2, nd1, nd2⟩ := hinv
    refine ⟨?_, ?_, ?_, ?_⟩
    · intro k nmm hkk
      rw [hd] at hkk
      rw [hr]
      cases hk0 : alookup st.mtl_dict k with
      | some nm0 =>
        rw [alookup_append_of_isSome (by simp [hk0]), hk0] at hkk
        injection hkk with hkk
        subst hkk
        rw [alookup_append_of_isSome (by simp [c1 k nm0 hk0])]
        exact c1 k nm0 hk0
      | none =>
        rw [alookup_append_of_none hk0] at hkk
        unfold alookup at hkk
        split_ifs at hkk with hke
        · injection hkk with hkk
          subst hkk
          subst hke
          rw [alookup_append_of_none hfree]
          simp [alookup]
        · simp [alookup] at hkk
    · intro n k hkk
      rw [hr] at hkk
      rw [hd]
      cases hr0 : alookup st.mtl_rev_dict n with
      | some k0 =>
        rw [alookup_append_of_isSome (by simp [hr0]), hr0] at hkk
        injection hkk with hkk
        subst hkk
        obtain ⟨nmm, hm, he⟩ := c2 n k0 hr0
        exact ⟨nmm, by rw [alookup_append_of_isSome (by simp [hm])]; exact hm, he⟩
      | none =>
        rw [alookup_append_of_none hr0] at hkk
        unfold alookup at hkk
        split_ifs at hkk with hke
        · injection hkk with hkk
          subst hkk
          refine ⟨((resolveMat st key mat).1, mat), ?_, by simp [hke]⟩
          rw [alookup_append_of_none hl]
          simp [alookup]
        · simp [alookup] at hkk
    · rw [hd, List.map_append, List.nodup_append]
      refine ⟨nd1, by simp, ?_⟩
      intro a ha hb
      simp at hb
      subst hb
      exact (alookup_eq_none_iff.mp hl) ha
    · rw [hr, List.map_append, List.nodup_append]
      refine ⟨nd2, by simp, ?_⟩
      intro a ha hb
      simp at hb
      subst hb
      exact (alookup_eq_none_iff.mp hfree) ha

theorem resolveMat_self_lookup (st : MtlState) (key : MatKey)
    (mat : Option Material) :
    ∃ m2, alookup (resolveMat st key mat).2.mtl_dict key =
      some ((resolveMat st key mat).1, m2) := by
  cases hl : alookup st.mtl_dict key with
  | some md =>
    refine ⟨md.2, ?_⟩
    rw [resolveMat_state_some hl mat]
    simpa using hl
  | none =>
    refine ⟨mat, ?_⟩
    rw [(resolveMat_state_none hl mat).1]
    rw [alookup_append_of_none hl]
    simp [alookup]

theorem resolveMat_idem (st : MtlState) (key : MatKey)
    (mat mat2 : Option Material) :
    resolveMat (resolveMat st key mat).2 key mat2 =
      ((resolveMat st key mat).1, (resolveMat st key mat).2) := by
  obtain ⟨m2, hm⟩ := resolveMat_self_lookup st key mat
  exact resolveMat_state_some hm mat2

theorem resolveMat_preserves_mtl (st : MtlState) (key k0 : MatKey)
    (mat : Option Material) (nmm : Str × Option Material)
    (h : alookup st.mtl_dict k0 = some nmm) :
    alookup (resolveMat st key mat).2.mtl_dict k0 = some nmm := by
  cases hl : alookup st.mtl_dict key with
  | some md => rw [resolveMat_state_some hl mat]; exact h
  | none =>
    rw [(resolveMat_state_none hl mat).1]
    rw [alookup_append_of_isSome (by simp [h])]
    exact h

theorem resolveMat_preserves_rev (st : MtlState) (key : MatKey)
    (mat : Option Material) (n0 : Str) (k0 : MatKey)
    (h : alookup st.mtl_rev_dict n0 = some k0) :
    alookup (resolveMat st key mat).2.mtl_rev_dict n0 = some k0 := by
  cases hl : alookup st.mtl_dict key with
  | some md => rw [resolveMat_state_some hl mat]; exact h
  | none =>
    rw [(resolveMat_state_none hl mat).2]
    rw [alookup_append_of_isSome (by simp [h])]
    exact h

/-- C3: the material name resolver is idempotent and injective for the whole
run: the registry invariant holds initially and is preserved by every
resolution; resolving a key twice returns the identical name and leaves the
state unchanged; entries of both registries are never changed once written
(names are never reassigned); and two distinct keys always hold two distinct
resolved names. -/
theorem C3_resolver :
    RInv ⟨[], []⟩ ∧
    (∀ (st : MtlState) (key : MatKey) (mat : Option Material),
      RInv st → RInv (resolveMat st key mat).2) ∧
    (∀ (st : MtlState) (key : MatKey) (mat mat2 : Option Material),
      resolveMat (resolveMat st key mat).2 key mat2 =
        ((resolveMat st key mat).1, (resolveMat st key mat).2)) ∧
    (∀ (st : MtlState) (key k0 : MatKey) (mat : Option Material)
      (nmm : Str × Option Material),
      alookup st.mtl_dict k0 = some nmm →
      alookup (resolveMat st key mat).2.mtl_dict k0 = some nmm) ∧
    (∀ (st : MtlState) (key : MatKey) (mat : Option Material) (n0 : Str)
      (k0 : MatKey),
      alookup st.mtl_rev_dict n0 = some k0 →
      alookup (resolveMat st key mat).2.mtl_rev_dict n0 = some k0) ∧
    (∀ (st : MtlState) (k1 k2 : MatKey) (n1 n2 : Str)
      (m1 m2 : Option Material),
      RInv st → k1 ≠ k2 → alookup st.mtl_dict k1 = some (n1, m1) →
      alookup st.mtl_dict k2 = some (n2, m2) → n1 ≠ n2) := by
  refine ⟨?_, fun st key mat h => RInv_resolveMat h key mat, resolveMat_idem,
    resolveMat_preserves_mtl, resolveMat_preserves_rev, ?_⟩
  · exact ⟨by intro k nmm h; simp [alookup] at h,
      by intro n k h; simp [alookup] at h, by simp, by simp⟩
  · intro st k1 k2 n1 n2 m1 m2 hinv hne h1 h2 heq
    subst heq
    have r1 := hinv.1 k1 _ h1
    have r2 := hinv.1 k2 _ h2
    rw [r1] at r2
    injection r2 with r2
    exact hne r2

/-- Witness for C3: resolving `kA` twice is idempotent, and in the state
after registering `kA` and `kB` the two names are distinct. -/
theorem C3_resolver_witness :
    resolveMat st3a kA none = ((resolveMat ⟨[], []⟩ kA none).1, st3a) ∧
    (('a' :: []) : Str) ≠ ('b' :: []) :=
  ⟨C3_resolver.2.2.1 ⟨[], []⟩ kA none none,
   C3_resolver.2.2.2.2.2 st3b kA kB ('a' :: []) ('b' :: []) none none
     (C3_resolver.2.1 st3a kB none
       (C3_resolver.2.1 ⟨[], []⟩ kA none C3_resolver.1))
     (by decide) (by rfl) (by rfl)⟩

/-- C6 counterexample: with base name "M" and "M_NONE" both claimed by other
keys, the resolver does NOT try the numeric suffix `_0` (which is free): it
returns `M_  1` — the counter starts at 1 and is formatted with `"%3d"`
(width 3, space padded), and it replaces the `_NONE` suffix rather than
appending to it. -/
theorem C6_suffix_cex :
    revOkB st6.mtl_rev_dict key6 (('M' :: []) ++ ('_' :: '0' :: [])) = true ∧
    (resolveMat st6 key6 none).1 = ("M_  1".data) ∧
    (resolveMat st6 key6 none).1 ≠ (('M' :: []) ++ ('_' :: '0' :: [])) := by
  refine ⟨by decide, by decide, by decide⟩

/-- C6 amended: when both the base name and base+`_NONE`/`_<image>` are
claimed by different keys, the resolver returns `base + "_%3d" % j` for the
least counter `j ≥ 1` whose candidate is free (the numeric suffix replaces
the first suffix; counters start at 1, not 0, and are width-3 space
padded). -/
theorem C6_suffix_amended (st : MtlState) (key : MatKey)
    (mat : Option Material) (j : Nat)
    (hkey : alookup st.mtl_dict key = none)
    (hbase : revOkB st.mtl_rev_dict key (name_compat key.1) = false)
    (hext : revOkB st.mtl_rev_dict key (name_compat key.1 ++
      (match key.2 with
       | none => "_NONE".data
       | some img => '_' :: name_compat (some img))) = false)
    (hj1 : 1 ≤ j)
    (hmin : ∀ j2, 1 ≤ j2 → j2 < j →
      revOkB st.mtl_rev_dict key (sfxCand (name_compat key.1) j2) = false)
    (hfree : revOkB st.mtl_rev_dict key (sfxCand (name_compat key.1) j) = true) :
    (resolveMat st key mat).1 = sfxCand (name_compat key.1) j := by
  have hbound : j ≤ st.mtl_rev_dict.length + 1 :=
    nonfree_bound st.mtl_rev_dict key (name_compat key.1) j hmin
  simp only [resolveMat, hkey]
  rw [if_neg (by simp [hbase]), if_neg (by simp [hext])]
  exact searchSfx_eq st.mtl_rev_dict key (name_compat key.1)
    (st.mtl_rev_dict.length + 1) 1 j hj1 (by omega) hmin hfree

/-- Witness for C6 amended at the concrete blocked state: the first free
counter is 1 and the resolver returns `M + "_%3d" % 1`. -/
theorem C6_suffix_amended_witness :
    (resolveMat st6 key6 none).1 = sfxCand (name_compat key6.1) 1 :=
  C6_suffix_amended st6 key6 none 1 (by rfl) (by decide) (by decide)
    (by decide) (fun j2 h1 h2 => by omega) (by decide)

/-! ### C5: MTL block order -/

theorem insertLe_perm {α : Type} (le : α → α → Bool) (x : α) :
    ∀ l : List α, List.Perm (insertLe le x l) (x :: l)
  | [] => List.Perm.refl _
  | y :: ys => by
    unfold insertLe
    split_ifs
    · exact List.Perm.refl _
    · exact ((insertLe_perm le x ys).cons y).trans (List.Perm.swap x y ys)

theorem sortByB_perm {α : Type} (le : α → α → Bool) :
    ∀ l : List α, List.Perm (sortByB le l) l
  | [] => List.Perm.refl _
  | x :: xs =>
    (insertLe_perm le x (sortByB le xs)).trans ((sortByB_perm le xs).cons x)

theorem insertLe_map {α β : Type} (g : α → β) (leA : α → α → Bool)
    (leB : β → β → Bool) (h : ∀ a b, leB (g a) (g b) = leA a b) (x : α) :
    ∀ l : List α, insertLe leB (g x) (l.map g) = (insertLe leA x l).map g
  | [] => rfl
  | y :: ys => by
    simp only [List.map_cons, insertLe, h x y]
    split_ifs
    · rfl
    · simp [insertLe_map g leA leB h x ys]

theorem sortByB_map {α β : Type} (g : α → β) (leA : α → α → Bool)
    (leB : β → β → Bool) (h : ∀ a b, leB (g a) (g b) = leA a b) :
    ∀ l : List α, sortByB leB (l.map g) = (sortByB leA l).map g
  | [] => rfl
  | x :: xs => by
    simp only [List.map_cons, sortByB, sortByB_map g leA leB h xs]
    exact insertLe_map g leA leB h x (sortByB leA xs)

theorem enumFrom_map {α β : Type} (f : α → β) :
    ∀ (n : Nat) (l : List α),
    (l.map f).enumFrom n = (l.enumFrom n).map (fun p => (p.1, f p.2))
  | _, [] => rfl
  | n, x :: xs => by
    simp only [List.map_cons, List.enumFrom, enumFrom_map f (n + 1) xs]

theorem pySortKeyed_map_key {α β : Type} (keyLt : β → β → Bool) (key : α → β)
    (l : List α) : (pySortKeyed keyLt key l).map key =
      pySortKeyed keyLt id (l.map key) := by
  unfold pySortKeyed
  have henum : (l.map key).enum = l.enum.map (fun p => (p.1, key p.2)) :=
    enumFrom_map key 0 l
  rw [henum]
  have hsort := sortByB_map (fun p : Nat × α => (p.1, key p.2))
    (fun a b => if keyLt (key a.2) (key b.2) then true
      else if keyLt (key b.2) (key a.2) then false else decide (a.1 ≤ b.1))
    (fun a b : Nat × β => if keyLt (id a.2) (id b.2) then true
      else if keyLt (id b.2) (id a.2) then false else decide (a.1 ≤ b.1))
    (fun a b => rfl) l.enum
  rw [hsort]
  simp [List.map_map, Function.comp_def]

theorem pySortKeyed_perm {α β : Type} (keyLt : β → β → Bool) (key : α → β)
    (l : List α) : List.Perm (pySortKeyed keyLt key l) l := by
  unfold pySortKeyed
  have h := (sortByB_perm (fun a b : Nat × α =>
      if keyLt (key a.2) (key b.2) then true
      else if keyLt (key b.2) (key a.2) then false
      else decide (a.1 ≤ b.1)) l.enum).map Prod.snd
  rwa [List.enum_map_snd] at h

theorem take7_of_headpart {a : Str} (b : Str) (h7 : 7 ≤ a.length) :
    (a ++ b).take 7 = a.take 7 := by
  rw [List.take_append_eq_append_take]
  have h0 : 7 - a.length = 0 := by omega
  rw [h0]
  simp

theorem drop7_of_headpart {a : Str} (b : Str) (h7 : a.length = 7) :
    (a ++ b).drop 7 = b := by
  rw [← h7, List.drop_left]

theorem join_cons_eq {α : Type} (x : List α) (xs : List (List α)) :
    (x :: xs).join = x ++ xs.join := rfl

theorem newmtlNames_join :
    ∀ sorted : List (Str × Option Material),
    newmtlNames ((sorted.map (fun v =>
      newmtlLine v.1 ::
        (match v.2 with
         | none => []
         | some m =>
           match m.texImage with
           | none => []
           | some p => [mapKdLine p]))).join) = sorted.map Prod.fst
  | [] => rfl
  | ⟨nm, mo⟩ :: rest => by
    have ih := newmtlNames_join rest
    unfold newmtlNames at ih ⊢
    rw [List.map_cons, join_cons_eq, List.filterMap_append]
    have hname : ((newmtlLine nm).take 7 = "newmtl ".data) := by
      rw [show newmtlLine nm = "newmtl ".data ++ nm from rfl,
        take7_of_headpart _ (by decide)]
      decide
    have hf : (if (newmtlLine nm).take 7 = "newmtl ".data then
        some ((newmtlLine nm).drop 7) else none) = some nm := by
      rw [if_pos hname,
        show (newmtlLine nm).drop 7 = nm from drop7_of_headpart _ (by decide)]
    rw [List.filterMap_cons, hf]
    rw [ih]
    have htail : List.filterMap (fun l =>
        if l.take 7 = "newmtl ".data then some (l.drop 7) else none)
        (match mo with
         | none => ([] : List Str)
         | some m =>
           match m.texImage with
           | none => []
           | some p => [mapKdLine p]) = [] := by
      match mo with
      | none => rfl
      | some m =>
        match hm : m.texImage with
        | none => simp only [hm]; rfl
        | some p =>
          simp only [hm]
          have hg : (if (mapKdLine p).take 7 = "newmtl ".data then
              some ((mapKdLine p).drop 7) else none) = none := by
            rw [show mapKdLine p = "map_Kd ".data ++ p from rfl,
              take7_of_headpart _ (by decide), if_neg (by decide)]
          rw [List.filterMap_cons, hg]
          rfl
    rw [htail]
    simp

theorem newmtlNames_write_mtl (d : List (MatKey × (Str × Option Material))) :
    newmtlNames (write_mtl d) =
      (pySortKeyed strLtB Prod.fst (d.map Prod.snd)).map Prod.fst := by
  unfold write_mtl
  unfold newmtlNames
  have h1 : (if ("# Blender MTL File: None".data).take 7 = "newmtl ".data then
      some (("# Blender MTL File: None".data).drop 7) else none) =
      (none : Option Str) := by decide
  have h2 : (if ("# Material Count: ".data ++ decRepr d.length).take 7 =
        "newmtl ".data then
      some (("# Material Count: ".data ++ decRepr d.length).drop 7)
      else none) = (none : Option Str) := by
    rw [take7_of_headpart _ (by decide)]
    rw [if_neg (by decide)]
  rw [List.filterMap_cons, h1, List.filterMap_cons, h2]
  exact newmtlNames_join (pySortKeyed strLtB Prod.fst (d.map Prod.snd))

/-- C5 counterexample: a registry whose names were inserted in the order
`b`, `a` is written with `newmtl a` before `newmtl b` — the MTL writer sorts
blocks by resolved name (`m[0]`), not by insertion order. -/
theorem C5_order_cex :
    newmtlNames (write_mtl regC5) = [('a' :: []), ('b' :: [])] ∧
    regC5.map (fun e => e.2.1) = [('b' :: []), ('a' :: [])] ∧
    newmtlNames (write_mtl regC5) ≠ regC5.map (fun e => e.2.1) := by
  refine ⟨by decide, by decide, by decide⟩

/-- C5 amended: the `newmtl` blocks appear in the order given by Python's
stable sort of the registry values by resolved name (lexicographic by code
point), and the emitted names are exactly a permutation of the registry's
names. -/
theorem C5_order_amended (d : List (MatKey × (Str × Option Material))) :
    newmtlNames (write_mtl d) =
      pySortKeyed strLtB id (d.map (fun e => e.2.1)) ∧
    List.Perm (newmtlNames (write_mtl d)) (d.map (fun e => e.2.1)) := by
  have h1 := newmtlNames_write_mtl d
  have hmm : (d.map Prod.snd).map Prod.fst = d.map (fun e => e.2.1) := by
    simp [List.map_map, Function.comp_def]
  constructor
  · rw [h1, pySortKeyed_map_key, hmm]
  · rw [h1, ← hmm]
    exact (pySortKeyed_perm strLtB Prod.fst (d.map Prod.snd)).map Prod.fst

/-- C4 counterexample: for a mesh with zero material slots (so no real
material is assigned to its face), the computed key is the *string* "None"
paired with `None` — not `(None, None)` — and the mesh branch emits
`usemtl None` (registering a material literally called `None`), not
`usemtl (null)`. -/
theorem C4_null_key_cex :
    faceKey mesh4 poly4 = (some (name_compat none), none) ∧
    faceKey mesh4 poly4 ≠ ((none : Option Str), (none : Option Str)) ∧
    (processMesh cfg4 ob4 mesh4 initWState).1.filter isUsemtl =
      [usemtlLine ("None".data)] ∧
    usemtlLine ("(null)".data) ∉ (processMesh cfg4 ob4 mesh4 initWState).1 := by
  refine ⟨by decide, by decide, by decide, by decide⟩

/-- C4 amended: the `(None, None)` key belongs to faces whose (clamped)
material slot *exists but is empty* — a mesh with a non-empty slot list whose
effective slot holds no material; only then is `usemtl (null)` emitted at a
context switch when MTL output is enabled.  A mesh with zero slots instead
receives the synthetic name "None" (`name_compat(None)`). -/
theorem C4_null_key_amended :
    (∀ (me : Mesh) (f : Polygon), me.materials ≠ [] →
      me.materials.getD (effMatIndex me f) none = none →
      faceKey me f = (none, none)) ∧
    (∀ (me : Mesh) (f : Polygon), me.materials = [] →
      faceKey me f = (some (name_compat none), none)) ∧
    (∀ (env : FaceEnv) (ctxMat : Option MatKey) (mtl : MtlState)
      (key : MatKey) (f_mat : Nat),
      env.cfg.EXPORT_MTL = true → key = (none, none) → some key ≠ ctxMat →
      usemtlLine ("(null)".data) ∈ (matStepF env ctxMat mtl key f_mat).1) := by
  refine ⟨?_, ?_, ?_⟩
  · intro me f hne hslot
    have hemp : me.materials.isEmpty = false := by
      cases hm : me.materials with
      | nil => exact absurd hm hne
      | cons a t => rfl
    unfold faceKey effMaterialNames
    rw [if_neg (by simp [hemp])]
    rw [Prod.mk.injEq]
    refine ⟨?_, rfl⟩
    rw [List.getD_eq_getElem?_getD, List.getElem?_map]
    rw [List.getD_eq_getElem?_getD] at hslot
    cases hsl : me.materials[effMatIndex me f]? with
    | none => simp
    | some o =>
      rw [hsl] at hslot
      simp at hslot
      subst hslot
      simp
  · intro me f hm
    unfold faceKey effMaterialNames effMatIndex effMaterials
    rw [hm]
    simp
  · intro env ctxMat mtl key f_mat hmtl hkey hctx
    unfold matStepF
    rw [if_neg hctx]
    rw [if_pos (by rw [hkey]; exact ⟨rfl, rfl⟩)]
    rw [hmtl]
    simp

/-- Witness for C4 amended: a mesh with one empty material slot yields the
`(None, None)` key and `usemtl (null)` is emitted at the context switch. -/
theorem C4_null_key_amended_witness :
    faceKey mesh4n poly4n = (none, none) ∧
    usemtlLine ("(null)".data) ∈
      (matStepF env4n none ⟨[], []⟩ (none, none) 0).1 :=
  ⟨C4_null_key_amended.1 mesh4n poly4n (by decide) (by decide),
   C4_null_key_amended.2.2 env4n none ⟨[], []⟩ (none, none) 0 (by rfl)
     (by rfl) (by decide)⟩

/-! ### C7: `parm u` numeric precision -/

theorem pyRoundInt_intCast (z : ℤ) : pyRoundInt (z : ℚ) = z := by
  unfold pyRoundInt
  simp

theorem takeWhile_upto_stop {α : Type} (p : α → Bool) :
    ∀ (xs : List α) (a : α) (ys : List α), (∀ x ∈ xs, p x = true) →
    p a = false → (xs ++ a :: ys).takeWhile p = xs
  | [], a, ys, _, ha => by simp [List.takeWhile, ha]
  | x :: xs, a, ys, hx, ha => by
    simp only [List.cons_append, List.takeWhile, hx x (by simp), List.append_eq]
    rw [takeWhile_upto_stop p xs a ys (fun y hy => hx y (by simp [hy])) ha]

theorem decRepr_length_le {n d : Nat} (hd : 0 < d) (h : n < 10 ^ d) :
    (decRepr n).length ≤ d := by
  rw [decRepr_def]
  split
  · simpa using hd
  · next hn =>
    rw [List.length_reverse, List.length_map]
    rw [Nat.digits_len 10 n (by norm_num) hn]
    have := Nat.log_lt_of_lt_pow hn h
    omega

/-- The fixed-point formatter always prints exactly `d` digits after the
final decimal point. -/
theorem decimalsAfterDot_fmtScaled {d : Nat} (hd : 0 < d) (z : ℤ) :
    decimalsAfterDot (fmtScaled d z) = d := by
  unfold fmtScaled decimalsAfterDot
  set b := padZeros d (decRepr (z.natAbs % 10 ^ d)) with hb
  have hblen : b.length = d := by
    rw [hb]
    unfold padZeros
    rw [List.length_append, List.length_replicate]
    have := decRepr_length_le hd (Nat.mod_lt _ (by positivity) :
      z.natAbs % 10 ^ d < 10 ^ d)
    omega
  have hbchars : ∀ c ∈ b, (c != '.') = true := by
    intro c hc
    rw [hb] at hc
    unfold padZeros at hc
    rw [List.mem_append] at hc
    rcases hc with hc | hc
    · rw [List.eq_of_mem_replicate hc]
      decide
    · simpa using decRepr_ne_dot hc
  rw [show (if z < 0 then ['-'] else []) ++
      decRepr (z.natAbs / 10 ^ d) ++ '.' :: b =
      ((if z < 0 then ['-'] else []) ++ decRepr (z.natAbs / 10 ^ d)) ++
        '.' :: b by rw [List.append_assoc]]
  rw [List.reverse_append]
  rw [show ('.' :: b).reverse = b.reverse ++ ['.'] by simp]
  rw [List.append_assoc, List.singleton_append]
  rw [takeWhile_upto_stop _ b.reverse '.' _
    (fun c hc => hbchars c (List.mem_reverse.mp hc)) (by decide)]
  rw [List.length_reverse]
  exact hblen

/-- C7 amended: every value on a `parm u` line is formatted at **6** decimal
places (`"%.6f"`, same as positions and UVs), not 4: `fmtFixed 6` always
prints exactly six digits after the decimal point, and the `parm u` line is
the space-join of `fmtFixed 6` over the parameter values. -/
theorem C7_parm_amended :
    (∀ q : ℚ, decimalsAfterDot (fmtFixed 6 q) = 6) ∧
    (∀ (deg ptNum : Nat) (ep : Bool),
      parmLine (parmValues deg ptNum ep) =
        "parm u ".data ++ joinSpace ((parmValues deg ptNum ep).map (fmtFixed 6))) :=
  ⟨fun q => decimalsAfterDot_fmtScaled (by norm_num) _, fun _ _ _ => rfl⟩

theorem fmtFixed6_of_int (q : ℚ) (z : ℤ) (h : q * 10 ^ 6 = (z : ℚ)) :
    fmtFixed 6 q = fmtScaled 6 z := by
  unfold fmtFixed
  rw [h, pyRoundInt_intCast]

theorem fmtFixed4_of_int (q : ℚ) (z : ℤ) (h : q * 10 ^ 4 = (z : ℚ)) :
    fmtFixed 4 q = fmtScaled 4 z := by
  unfold fmtFixed
  rw [h, pyRoundInt_intCast]

/-- C7 counterexample: the `parm u` line of a concrete open 4-point POLY
spline carries values formatted at 6 decimal places, and differs from the
4-decimal rendition the claim requires. -/
theorem C7_parm_cex :
    parmLine (parmValues 1 (finalPtNum 1 false 4) false) ∈
      (nurbSpline ('C' :: []) s7).1 ∧
    parmLine (parmValues 1 (finalPtNum 1 false 4) false) =
      ("parm u 0.000000 0.200000 0.400000 0.600000 0.800000 1.000000".data) ∧
    parmLine (parmValues 1 (finalPtNum 1 false 4) false) ≠
      "parm u ".data ++
        joinSpace ((parmValues 1 (finalPtNum 1 false 4) false).map (fmtFixed 4)) := by
  have hvals : parmValues 1 (finalPtNum 1 false 4) false =
      [0, 1/5, 2/5, 3/5, 4/5, 1] := by
    show parmValues 1 4 false = _
    unfold parmValues
    norm_num [List.range_succ]
  have h60 : fmtFixed 6 (0 : ℚ) = fmtScaled 6 0 :=
    fmtFixed6_of_int _ _ (by norm_num)
  have h61 : fmtFixed 6 (1/5 : ℚ) = fmtScaled 6 200000 :=
    fmtFixed6_of_int _ _ (by norm_num)
  have h62 : fmtFixed 6 (2/5 : ℚ) = fmtScaled 6 400000 :=
    fmtFixed6_of_int _ _ (by norm_num)
  have h63 : fmtFixed 6 (3/5 : ℚ) = fmtScaled 6 600000 :=
    fmtFixed6_of_int _ _ (by norm_num)
  have h64 : fmtFixed 6 (4/5 : ℚ) = fmtScaled 6 800000 :=
    fmtFixed6_of_int _ _ (by norm_num)
  have h65 : fmtFixed 6 (1 : ℚ) = fmtScaled 6 1000000 :=
    fmtFixed6_of_int _ _ (by norm_num)
  have h40 : fmtFixed 4 (0 : ℚ) = fmtScaled 4 0 :=
    fmtFixed4_of_int _ _ (by norm_num)
  have h41 : fmtFixed 4 (1/5 : ℚ) = fmtScaled 4 2000 :=
    fmtFixed4_of_int _ _ (by norm_num)
  have h42 : fmtFixed 4 (2/5 : ℚ) = fmtScaled 4 4000 :=
    fmtFixed4_of_int _ _ (by norm_num)
  have h43 : fmtFixed 4 (3/5 : ℚ) = fmtScaled 4 6000 :=
    fmtFixed4_of_int _ _ (by norm_num)
  have h44 : fmtFixed 4 (4/5 : ℚ) = fmtScaled 4 8000 :=
    fmtFixed4_of_int _ _ (by norm_num)
  have h45 : fmtFixed 4 (1 : ℚ) = fmtScaled 4 10000 :=
    fmtFixed4_of_int _ _ (by norm_num)
  refine ⟨?_, ?_, ?_⟩
  · have hstep : (nurbSpline ('C' :: []) s7).1 = s7.points.map vLine ++
        gLine (name_compat (some ('C' :: []))) :: ("cstype bspline".data) ::
        degLine 1 :: curvLine (curveIndices 1 false 4) ::
        parmLine (parmValues 1 (finalPtNum 1 false 4) false) ::
        [("end".data)] := rfl
    rw [hstep]
    simp
  · rw [hvals]
    unfold parmLine
    simp only [List.map_cons, List.map_nil, h60, h61, h62, h63, h64, h65]
    decide
  · rw [hvals]
    unfold parmLine
    simp only [List.map_cons, List.map_nil, h60, h61, h62, h63, h64, h65,
      h40, h41, h42, h43, h44, h45]
    decide

end ExportObjSO


